import Mathlib

/-!
Verification of the `Encrypter` class (src/Encrypter.ts, the variant with
call-level options cited by the claims): application-level authenticated
encryption (AES-256-GCM) with key rotation, optional serialization,
compression, TTL expiry and context (AAD) binding, plus HMAC-SHA256 signing.

Shallow embedding conventions:
* Bytes (`Buffer`) are `List Nat` with every entry `< 256` where it matters.
* The external AEAD primitive (AES-256-GCM) is modelled symbolically as an
  ideal cipher: the ciphertext is the plaintext byte string (length
  preserving, confidentiality is not at issue in any claim) and the
  authentication tag is an injective framing of (key, iv, aad, plaintext);
  decryption succeeds exactly when the recomputed tag matches.
* The external keyed-hash primitive (HMAC-SHA256, hex digest) is modelled as
  a deterministic fixed-width (64 hex chars) digest of (key, message).
* The external serializer (`JSON.stringify` / `JSON.parse`) is modelled
  concretely for the value universe `Json` (null, booleans, integer
  numbers, strings, arrays, objects): the printer follows JSON.stringify
  exactly (insertion-order keys, standard escapes); the parser is a strict
  recursive-descent JSON reader for that fragment (integer numerals, no
  inter-token whitespace), failing on anything else, as `JSON.parse` fails
  on malformed text.
* `Buffer.from(s)` / `buf.toString('utf8')` are real UTF-8 encode/decode;
  the decoder is total (replacement character on malformed sequences, as in
  Node).
* `Buffer.from(s, 'base64')` is Node's lenient base64 reader: characters
  outside the alphabet (including `=` padding) are ignored, a trailing lone
  sextet is dropped; encoding is standard padded base64.
* `randomBytes(16)` and `Date.now()` are passed as explicit `iv` / `now`
  arguments.
* The only exceptions the class can surface are modelled by `JsError`;
  the internal try/catch structure becomes explicit `Except` plumbing.
-/

/-- Byte strings (`Buffer` contents): lists of naturals, `< 256` in use. -/
abbrev Bytes : Type := List Nat

/-- Well-formed byte string: every entry is an actual byte. -/
def WfBytes (bs : Bytes) : Prop := ∀ b ∈ bs, b < 256

instance : DecidablePred WfBytes := fun bs =>
  inferInstanceAs (Decidable (∀ b ∈ bs, b < 256))

/-! ## Base64 transport codec (`Buffer.toString('base64')` / `Buffer.from(_, 'base64')`) -/

/-- The base64 alphabet, index order. -/
def b64Alphabet : List Char :=
  "ABCDEFGHIJKLMNOPQRSTUVWXYZabcdefghijklmnopqrstuvwxyz0123456789+/".data

/-- Character for a sextet value (`< 64` in use). -/
def b64Char (n : Nat) : Char := b64Alphabet.getD n '='

/-- Sextet value of a character; `none` for padding and foreign characters
(Node's decoder skips those). -/
def b64Value (c : Char) : Option Nat := b64Alphabet.findIdx? (· = c)

/-- Encode bytes three at a time into sextet characters, padding with `=`. -/
def b64EncGroups : List Nat → List Char
  | [] => []
  | [a] => [b64Char (a / 4), b64Char (a % 4 * 16), '=', '=']
  | [a, b] => [b64Char (a / 4), b64Char (a % 4 * 16 + b / 16), b64Char (b % 16 * 4), '=']
  | a :: b :: c :: rest =>
      b64Char (a / 4) :: b64Char (a % 4 * 16 + b / 16) ::
      b64Char (b % 16 * 4 + c / 64) :: b64Char (c % 64) :: b64EncGroups rest

/-- Model of `buf.toString('base64')`. -/
def base64Encode (bs : Bytes) : String := String.mk (b64EncGroups bs)

/-- Rebuild bytes from sextet values four at a time; a trailing lone sextet
carries no complete byte and is dropped. -/
def b64DecGroups : List Nat → List Nat
  | v1 :: v2 :: v3 :: v4 :: rest =>
      (v1 * 4 + v2 / 16) :: (v2 % 16 * 16 + v3 / 4) :: (v3 % 4 * 64 + v4) :: b64DecGroups rest
  | [v1, v2, v3] => [v1 * 4 + v2 / 16, v2 % 16 * 16 + v3 / 4]
  | [v1, v2] => [v1 * 4 + v2 / 16]
  | _ => []

/-- Model of `Buffer.from(s, 'base64')`: lenient, total. -/
def base64Decode (s : String) : Bytes := b64DecGroups (s.data.filterMap b64Value)

theorem b64Value_b64Char : ∀ n < 64, b64Value (b64Char n) = some n := by decide

theorem b64Value_eq : b64Value '=' = none := by decide

theorem base64_roundtrip (bs : Bytes) (h : WfBytes bs) :
    base64Decode (base64Encode bs) = bs := by
  unfold base64Decode base64Encode
  show b64DecGroups ((b64EncGroups bs).filterMap b64Value) = bs
  induction bs using b64EncGroups.induct with
  | case1 => rfl
  | case2 a =>
      have ha : a < 256 := h a (by simp)
      simp only [b64EncGroups, List.filterMap]
      rw [b64Value_b64Char _ (by omega), b64Value_b64Char _ (by omega), b64Value_eq]
      simp only [Option.some.injEq]
      show b64DecGroups [a / 4, a % 4 * 16] = [a]
      simp only [b64DecGroups]
      congr 1
      omega
  | case3 a b =>
      have ha : a < 256 := h a (by simp)
      have hb : b < 256 := h b (by simp)
      simp only [b64EncGroups, List.filterMap]
      rw [b64Value_b64Char _ (by omega), b64Value_b64Char _ (by omega),
        b64Value_b64Char _ (by omega), b64Value_eq]
      show b64DecGroups [a / 4, a % 4 * 16 + b / 16, b % 16 * 4] = [a, b]
      simp only [b64DecGroups]
      congr 1
      · omega
      · congr 1
        omega
  | case4 a b c rest ih =>
      have ha : a < 256 := h a (by simp)
      have hb : b < 256 := h b (by simp)
      have hc : c < 256 := h c (by simp)
      have hrest : WfBytes rest := fun x hx => h x (by simp [hx])
      simp only [b64EncGroups, List.filterMap]
      rw [b64Value_b64Char _ (by omega), b64Value_b64Char _ (by omega),
        b64Value_b64Char _ (by omega), b64Value_b64Char _ (by omega)]
      show b64DecGroups (_ :: _ :: _ :: _ :: (b64EncGroups rest).filterMap b64Value)
        = a :: b :: c :: rest
      simp only [b64DecGroups]
      refine ?_
      have h1 : a / 4 * 4 + (a % 4 * 16 + b / 16) / 16 = a := by omega
      have h2 : (a % 4 * 16 + b / 16) % 16 * 16 + (b % 16 * 4 + c / 64) / 4 = b := by omega
      have h3 : (b % 16 * 4 + c / 64) % 4 * 64 + c % 64 = c := by omega
      rw [h1, h2, h3, ih hrest]

theorem base64Encode_nil : base64Encode [] = "" := rfl

theorem base64Encode_ne_empty (bs : Bytes) (h : bs ≠ []) : base64Encode bs ≠ "" := by
  match bs, h with
  | a :: rest, _ =>
    unfold base64Encode
    intro hmk
    have hdata := congrArg String.data hmk
    match rest with
    | [] => simp [b64EncGroups] at hdata
    | [b] => simp [b64EncGroups] at hdata
    | b :: c :: r => simp [b64EncGroups] at hdata

/-! ## UTF-8 codec (`Buffer.from(string)` / `buf.toString('utf8')`) -/

/-- UTF-8 bytes of one code point (`< 0x110000` in use). -/
def utf8EncodeChar (n : Nat) : List Nat :=
  if n < 0x80 then [n]
  else if n < 0x800 then [0xC0 + n / 64, 0x80 + n % 64]
  else if n < 0x10000 then [0xE0 + n / 4096, 0x80 + n / 64 % 64, 0x80 + n % 64]
  else [0xF0 + n / 262144, 0x80 + n / 4096 % 64, 0x80 + n / 64 % 64, 0x80 + n % 64]

/-- Model of `Buffer.from(s)` (UTF-8 encoding). -/
def utf8Encode (s : String) : Bytes :=
  s.data.foldr (fun c acc => utf8EncodeChar c.toNat ++ acc) []

/-- U+FFFD, emitted by Node for malformed sequences. -/
def replChar : Char := Char.ofNat 0xFFFD

/-- Is the byte a UTF-8 continuation byte? -/
def isCont (b : Nat) : Bool := decide (0x80 ≤ b) && decide (b < 0xC0)

mutual

/-- Total UTF-8 decoder. On well-formed input it inverts `utf8Encode`;
malformed sequences yield replacement characters (the exact resync points
Node picks for garbage input are irrelevant to every claim: garbage only
ever flows on into `JSON.parse`, which rejects it). -/
def utf8DecodeAux : List Nat → List Char
  | [] => []
  | b :: rest =>
    if b < 0x80 then Char.ofNat b :: utf8DecodeAux rest
    else if b < 0xC2 then replChar :: utf8DecodeAux rest
    else if b < 0xE0 then utf8Dec2 b rest
    else if b < 0xF0 then utf8Dec3 b rest
    else utf8Dec4 b rest

/-- Continuation of a two-byte sequence whose lead byte is `b`. -/
def utf8Dec2 : Nat → List Nat → List Char
  | _, [] => [replChar]
  | b, c1 :: rest2 =>
      if isCont c1 then Char.ofNat ((b - 0xC0) * 64 + (c1 - 0x80)) :: utf8DecodeAux rest2
      else replChar :: utf8DecodeAux rest2

/-- Continuation of a three-byte sequence whose lead byte is `b`. -/
def utf8Dec3 : Nat → List Nat → List Char
  | _, [] => [replChar]
  | _, [_] => [replChar]
  | b, c1 :: c2 :: rest2 =>
      if isCont c1 && isCont c2 then
        Char.ofNat ((b - 0xE0) * 4096 + (c1 - 0x80) * 64 + (c2 - 0x80)) :: utf8DecodeAux rest2
      else replChar :: utf8DecodeAux rest2

/-- Continuation of a four-byte sequence whose lead byte is `b`. -/
def utf8Dec4 : Nat → List Nat → List Char
  | _, [] => [replChar]
  | _, [_] => [replChar]
  | _, [_, _] => [replChar]
  | b, c1 :: c2 :: c3 :: rest2 =>
      if decide (b < 0xF5) && isCont c1 && isCont c2 && isCont c3 then
        Char.ofNat ((b - 0xF0) * 262144 + (c1 - 0x80) * 4096 + (c2 - 0x80) * 64 + (c3 - 0x80))
          :: utf8DecodeAux rest2
      else replChar :: utf8DecodeAux rest2

end

/-- Model of `buf.toString('utf8')`. -/
def utf8Decode (bs : Bytes) : String := String.mk (utf8DecodeAux bs)

theorem char_ofNat_toNat (c : Char) : Char.ofNat c.toNat = c := by
  have hv : c.toNat.isValidChar := c.valid
  unfold Char.ofNat
  rw [dif_pos hv]
  unfold Char.ofNatAux
  apply Char.ext
  apply UInt32.ext
  simp [Char.toNat, UInt32.toNat, BitVec.ofNatLt]

theorem utf8EncodeChar_wf (n : Nat) (h : n < 0x110000) : WfBytes (utf8EncodeChar n) := by
  intro b hb
  unfold utf8EncodeChar at hb
  split at hb
  · simp at hb; omega
  · split at hb
    · simp at hb; rcases hb with h1 | h1 <;> omega
    · split at hb
      · simp at hb; rcases hb with h1 | h1 | h1 <;> omega
      · simp at hb; rcases hb with h1 | h1 | h1 | h1 <;> omega

theorem utf8DecodeAux_encodeChar (c : Char) (rest : List Nat) :
    utf8DecodeAux (utf8EncodeChar c.toNat ++ rest) = c :: utf8DecodeAux rest := by
  have hv : c.toNat.isValidChar := c.valid
  have hlt : c.toNat < 0x110000 := by
    rcases hv with h | h
    · omega
    · omega
  set n := c.toNat with hn
  unfold utf8EncodeChar
  by_cases h1 : n < 0x80
  · rw [if_pos h1]
    show utf8DecodeAux (n :: rest) = c :: utf8DecodeAux rest
    conv_lhs => rw [utf8DecodeAux]
    rw [if_pos h1, hn, char_ofNat_toNat]
  · rw [if_neg h1]
    by_cases h2 : n < 0x800
    · rw [if_pos h2]
      show utf8DecodeAux (((0xC0 + n / 64) :: (0x80 + n % 64) :: []) ++ rest)
        = c :: utf8DecodeAux rest
      rw [List.cons_append, List.cons_append, List.nil_append]
      conv_lhs => rw [utf8DecodeAux]
      rw [if_neg (by omega), if_neg (by omega), if_pos (by omega)]
      rw [utf8Dec2]
      have hc1 : isCont (0x80 + n % 64) = true := by
        simp only [isCont, Bool.and_eq_true, decide_eq_true_eq]
        omega
      rw [hc1]
      simp only [if_true]
      have hval : 0xC0 + n / 64 - 0xC0 = n / 64 := by omega
      have hval2 : 0x80 + n % 64 - 0x80 = n % 64 := by omega
      rw [hval, hval2]
      have hrec : n / 64 * 64 + n % 64 = n := by omega
      rw [hrec, hn, char_ofNat_toNat]
    · rw [if_neg h2]
      by_cases h3 : n < 0x10000
      · rw [if_pos h3]
        rw [List.cons_append, List.cons_append, List.cons_append, List.nil_append]
        conv_lhs => rw [utf8DecodeAux]
        rw [if_neg (by omega), if_neg (by omega), if_neg (by omega), if_pos (by omega)]
        rw [utf8Dec3]
        have hc12 : (isCont (0x80 + n / 64 % 64) && isCont (0x80 + n % 64)) = true := by
          simp only [isCont, Bool.and_eq_true, decide_eq_true_eq]
          omega
        rw [hc12]
        simp only [if_true]
        have hrec : (0xE0 + n / 4096 - 0xE0) * 4096 + (0x80 + n / 64 % 64 - 0x80) * 64
            + (0x80 + n % 64 - 0x80) = n := by omega
        rw [hrec, hn, char_ofNat_toNat]
      · rw [if_neg h3]
        rw [List.cons_append, List.cons_append, List.cons_append, List.cons_append,
          List.nil_append]
        conv_lhs => rw [utf8DecodeAux]
        rw [if_neg (by omega), if_neg (by omega), if_neg (by omega), if_neg (by omega)]
        rw [utf8Dec4]
        have hc : (decide (0xF0 + n / 262144 < 0xF5) && isCont (0x80 + n / 4096 % 64)
            && isCont (0x80 + n / 64 % 64) && isCont (0x80 + n % 64)) = true := by
          simp only [isCont, Bool.and_eq_true, decide_eq_true_eq]
          omega
        rw [hc]
        simp only [if_true]
        have hrec : (0xF0 + n / 262144 - 0xF0) * 262144 + (0x80 + n / 4096 % 64 - 0x80) * 4096
            + (0x80 + n / 64 % 64 - 0x80) * 64 + (0x80 + n % 64 - 0x80) = n := by omega
        rw [hrec, hn, char_ofNat_toNat]

theorem utf8DecodeAux_utf8Encode (cs : List Char) :
    utf8DecodeAux (cs.foldr (fun c acc => utf8EncodeChar c.toNat ++ acc) []) = cs := by
  induction cs with
  | nil => rfl
  | cons c rest ih =>
      simp only [List.foldr_cons]
      rw [utf8DecodeAux_encodeChar, ih]

theorem utf8_roundtrip (s : String) : utf8Decode (utf8Encode s) = s := by
  unfold utf8Decode utf8Encode
  rw [utf8DecodeAux_utf8Encode]

theorem utf8Encode_wf (s : String) : WfBytes (utf8Encode s) := by
  unfold utf8Encode
  induction s.data with
  | nil => intro b hb; simp at hb
  | cons c rest ih =>
      intro b hb
      simp only [List.foldr_cons, List.mem_append] at hb
      rcases hb with hb | hb
      · have hv : c.toNat.isValidChar := c.valid
        have : c.toNat < 0x110000 := by rcases hv with h | h <;> omega
        exact utf8EncodeChar_wf c.toNat this b hb
      · exact ih b hb

theorem utf8Encode_inj (s t : String) (h : utf8Encode s = utf8Encode t) : s = t := by
  have := congrArg utf8Decode h
  rwa [utf8_roundtrip, utf8_roundtrip] at this

/-! ## JSON values (`JSON.stringify` / `JSON.parse`)

The value universe covers everything the claims quantify over: null,
booleans, integer numbers (JS numbers restricted to integers: every number
the envelope itself carries is an integer, and fractional numerals never
appear in printer output), strings, arrays and insertion-ordered objects.
The printer is exactly `JSON.stringify` on this universe; the parser is a
strict reader of the printed fragment, failing on everything else just as
`JSON.parse` throws on malformed text. -/

inductive Json where
  | null
  | bool (b : Bool)
  | num (n : Int)
  | str (s : String)
  | arr (elems : List Json)
  | obj (fields : List (String × Json))

/-- The left curly brace, `Char.ofNat 123` (kept out of literals). -/
def lbraceChar : Char := Char.ofNat 123

/-- The right curly brace, `Char.ofNat 125`. -/
def rbraceChar : Char := Char.ofNat 125

def digitChar (n : Nat) : Char := Char.ofNat (48 + n)

def isDigitChar (c : Char) : Bool := decide (48 ≤ c.toNat) && decide (c.toNat ≤ 57)

def digVal (c : Char) : Nat := c.toNat - 48

def natDigitsAux : Nat → Nat → List Char
  | 0, _ => []
  | f + 1, n =>
      if n < 10 then [digitChar n]
      else natDigitsAux f (n / 10) ++ [digitChar (n % 10)]

/-- Decimal digits of a natural number, most significant first. -/
def natDigits (n : Nat) : List Char := natDigitsAux (n + 1) n

/-- Decimal numeral of an integer (how `JSON.stringify` prints one). -/
def intChars (n : Int) : List Char :=
  if n < 0 then '-' :: natDigits n.natAbs else natDigits n.natAbs

/-- Consume leading decimal digits, folding them onto `acc`. -/
def parseDigits : Nat → List Char → Nat × List Char
  | acc, [] => (acc, [])
  | acc, c :: rest =>
      if isDigitChar c then parseDigits (acc * 10 + digVal c) rest
      else (acc, c :: rest)

def hexDigitChar (n : Nat) : Char := Char.ofNat (if n < 10 then 48 + n else 87 + n)

/-- The `JSON.stringify` string escapes: quote, backslash, the five short
control escapes, and `\u00XX` for the remaining control characters. -/
def escChar (c : Char) : List Char :=
  if c = '"' then ['\\', '"']
  else if c = '\\' then ['\\', '\\']
  else if c = Char.ofNat 8 then ['\\', 'b']
  else if c = Char.ofNat 9 then ['\\', 't']
  else if c = Char.ofNat 10 then ['\\', 'n']
  else if c = Char.ofNat 12 then ['\\', 'f']
  else if c = Char.ofNat 13 then ['\\', 'r']
  else if c.toNat < 32 then
    ['\\', 'u', '0', '0', hexDigitChar (c.toNat / 16), hexDigitChar (c.toNat % 16)]
  else [c]

def escString (s : String) : List Char := s.data.foldr (fun c acc => escChar c ++ acc) []

def unescChar (c : Char) : Option Char :=
  if c = '"' then some '"'
  else if c = '\\' then some '\\'
  else if c = '/' then some '/'
  else if c = 'b' then some (Char.ofNat 8)
  else if c = 't' then some (Char.ofNat 9)
  else if c = 'n' then some (Char.ofNat 10)
  else if c = 'f' then some (Char.ofNat 12)
  else if c = 'r' then some (Char.ofNat 13)
  else none

def hexVal (c : Char) : Option Nat :=
  if isDigitChar c then some (c.toNat - 48)
  else if decide (97 ≤ c.toNat) && decide (c.toNat ≤ 102) then some (c.toNat - 87)
  else if decide (65 ≤ c.toNat) && decide (c.toNat ≤ 70) then some (c.toNat - 55)
  else none

mutual

/-- JSON string body reader, positioned after the opening quote; returns
the content characters and the input after the closing quote. -/
def parseStr : List Char → Option (List Char × List Char)
  | [] => none
  | c :: rest =>
      if c = '"' then some ([], rest)
      else if c = '\\' then parseEsc rest
      else if c.toNat < 32 then none
      else Option.map (fun p => (c :: p.1, p.2)) (parseStr rest)

/-- After a backslash inside a JSON string. -/
def parseEsc : List Char → Option (List Char × List Char)
  | [] => none
  | e :: rest =>
      if e = 'u' then parseHex4 rest
      else
        match unescChar e with
        | some c => Option.map (fun p => (c :: p.1, p.2)) (parseStr rest)
        | none => none

/-- After `\u` inside a JSON string: four hex digits. -/
def parseHex4 : List Char → Option (List Char × List Char)
  | h1 :: h2 :: h3 :: h4 :: rest =>
      match hexVal h1, hexVal h2, hexVal h3, hexVal h4 with
      | some v1, some v2, some v3, some v4 =>
          Option.map (fun p => (Char.ofNat (v1 * 4096 + v2 * 256 + v3 * 16 + v4) :: p.1, p.2))
            (parseStr rest)
      | _, _, _, _ => none
  | _ => none

end

/-- Match a literal suffix, returning the remaining input. -/
def stripPref : List Char → List Char → Option (List Char)
  | [], cs => some cs
  | _ :: _, [] => none
  | l :: ls, c :: cs => if c = l then stripPref ls cs else none

/-- After a leading minus sign: at least one digit required. -/
def parseNegRest : List Char → Option (Json × List Char)
  | [] => none
  | d :: rest =>
      if isDigitChar d then
        some (Json.num (-((parseDigits (digVal d) rest).1 : Int)),
          (parseDigits (digVal d) rest).2)
      else none

mutual

/-- Fuel-indexed JSON value reader. The fuel only bounds recursion depth;
`jsonParse` supplies more than any input can consume. -/
def parseVal : Nat → List Char → Option (Json × List Char)
  | 0, _ => none
  | _ + 1, [] => none
  | s + 1, c :: rest =>
      if c = 'n' then Option.map (fun r => (Json.null, r)) (stripPref ['u', 'l', 'l'] rest)
      else if c = 't' then Option.map (fun r => (Json.bool true, r)) (stripPref ['r', 'u', 'e'] rest)
      else if c = 'f' then
        Option.map (fun r => (Json.bool false, r)) (stripPref ['a', 'l', 's', 'e'] rest)
      else if c = '"' then
        Option.map (fun p => (Json.str (String.mk p.1), p.2)) (parseStr rest)
      else if c = '[' then parseArrRest s rest
      else if c = lbraceChar then parseObjRest s rest
      else if c = '-' then parseNegRest rest
      else if isDigitChar c then
        some (Json.num ((parseDigits (digVal c) rest).1 : Int), (parseDigits (digVal c) rest).2)
      else none

/-- After `[`. -/
def parseArrRest : Nat → List Char → Option (Json × List Char)
  | 0, _ => none
  | _ + 1, [] => none
  | s + 1, c :: rest =>
      if c = ']' then some (Json.arr [], rest)
      else Option.map (fun p => (Json.arr p.1, p.2)) (parseElems s (c :: rest))

/-- One array element, then the element continuation. -/
def parseElems : Nat → List Char → Option (List Json × List Char)
  | 0, _ => none
  | s + 1, cs => (parseVal s cs).bind fun p => elemsCont s p.1 p.2

/-- After one parsed array element: comma or closing bracket. -/
def elemsCont : Nat → Json → List Char → Option (List Json × List Char)
  | 0, _, _ => none
  | _ + 1, _, [] => none
  | s + 1, v, c :: rest =>
      if c = ',' then Option.map (fun p => (v :: p.1, p.2)) (parseElems s rest)
      else if c = ']' then some ([v], rest)
      else none

/-- After the opening brace. -/
def parseObjRest : Nat → List Char → Option (Json × List Char)
  | 0, _ => none
  | _ + 1, [] => none
  | s + 1, c :: rest =>
      if c = rbraceChar then some (Json.obj [], rest)
      else Option.map (fun p => (Json.obj p.1, p.2)) (parseFields s (c :: rest))

/-- One object member: quoted key first. -/
def parseFields : Nat → List Char → Option (List (String × Json) × List Char)
  | 0, _ => none
  | _ + 1, [] => none
  | s + 1, c :: rest =>
      if c = '"' then (parseStr rest).bind fun kp => fieldsColon s (String.mk kp.1) kp.2
      else none

/-- After an object key: colon, then the member value. -/
def fieldsColon : Nat → String → List Char → Option (List (String × Json) × List Char)
  | 0, _, _ => none
  | _ + 1, _, [] => none
  | s + 1, k, c :: rest =>
      if c = ':' then (parseVal s rest).bind fun vp => fieldsCont s k vp.1 vp.2
      else none

/-- After one parsed object member: comma or closing brace. -/
def fieldsCont : Nat → String → Json → List Char → Option (List (String × Json) × List Char)
  | 0, _, _, _ => none
  | _ + 1, _, _, [] => none
  | s + 1, k, v, c :: rest =>
      if c = ',' then Option.map (fun p => ((k, v) :: p.1, p.2)) (parseFields s rest)
      else if c = rbraceChar then some ([(k, v)], rest)
      else none

end

mutual

/-- Model of `JSON.stringify` on the modelled value universe. -/
def printChars : Json → List Char
  | .null => "null".data
  | .bool true => "true".data
  | .bool false => "false".data
  | .num n => intChars n
  | .str s => '"' :: escString s ++ ['"']
  | .arr l => '[' :: printElemsChars l ++ [']']
  | .obj l => lbraceChar :: printFieldsChars l ++ [rbraceChar]

/-- Comma-separated array elements. -/
def printElemsChars : List Json → List Char
  | [] => []
  | [x] => printChars x
  | x :: y :: rest => printChars x ++ ',' :: printElemsChars (y :: rest)

/-- Comma-separated `"key":value` object members. -/
def printFieldsChars : List (String × Json) → List Char
  | [] => []
  | [(k, v)] => '"' :: escString k ++ '"' :: ':' :: printChars v
  | (k, v) :: y :: rest =>
      ('"' :: escString k ++ '"' :: ':' :: printChars v) ++ ',' :: printFieldsChars (y :: rest)

end

/-- Model of `JSON.stringify(value)`. -/
def jsonStringify (v : Json) : String := String.mk (printChars v)

/-- Model of `JSON.parse(s)`: `none` models a thrown `SyntaxError`. Faithful on the
modelled fragment; rejects what the fragment omits (whitespace between
tokens, fractional/exponent numerals) — no claim reaches those inputs. -/
def jsonParse (s : String) : Option Json :=
  match parseVal (2 * s.data.length + 2) s.data with
  | some (v, []) => some v
  | _ => none

/-! ### Numeral round trip -/

/-- The input ahead does not begin with a digit (so a numeral ends there). -/
def NumSep (rest : List Char) : Prop := ∀ c r2, rest = c :: r2 → isDigitChar c = false

theorem numSep_nil : NumSep [] := by intro c r2 h; cases h

theorem digVal_digitChar : ∀ n < 10, digVal (digitChar n) = n := by decide

theorem isDigitChar_digitChar : ∀ n < 10, isDigitChar (digitChar n) = true := by decide

theorem natDigitsAux_digits (f : Nat) :
    ∀ n, n < f → ∀ c ∈ natDigitsAux f n, isDigitChar c = true := by
  induction f with
  | zero => intro n hn; omega
  | succ f ih =>
      intro n _ c hc
      unfold natDigitsAux at hc
      split at hc
      · simp at hc
        subst hc
        exact isDigitChar_digitChar n (by omega)
      · rename_i hge
        rw [List.mem_append] at hc
        rcases hc with hc | hc
        · exact ih (n / 10) (by omega) c hc
        · simp at hc
          subst hc
          exact isDigitChar_digitChar (n % 10) (by omega)

theorem natDigits_digits (n : Nat) : ∀ c ∈ natDigits n, isDigitChar c = true :=
  natDigitsAux_digits (n + 1) n (by omega)

theorem natDigitsAux_ne_nil (f n : Nat) (h : n < f) : natDigitsAux f n ≠ [] := by
  match f with
  | f' + 1 =>
    unfold natDigitsAux
    split
    · simp
    · simp

theorem natDigits_ne_nil (n : Nat) : natDigits n ≠ [] := natDigitsAux_ne_nil (n + 1) n (by omega)

theorem parseDigits_block (ds : List Char) (hds : ∀ c ∈ ds, isDigitChar c = true) :
    ∀ acc rest, NumSep rest →
      parseDigits acc (ds ++ rest) = (ds.foldl (fun a c => a * 10 + digVal c) acc, rest) := by
  induction ds with
  | nil =>
      intro acc rest hsep
      simp only [List.nil_append, List.foldl_nil]
      match rest with
      | [] => rfl
      | c :: r2 =>
          unfold parseDigits
          rw [hsep c r2 rfl]
          simp
  | cons d ds ih =>
      intro acc rest hsep
      simp only [List.cons_append, List.foldl_cons]
      unfold parseDigits
      rw [hds d (by simp)]
      simp only [if_true]
      exact ih (fun c hc => hds c (by simp [hc])) _ rest hsep

theorem natDigitsAux_foldl (f : Nat) :
    ∀ n acc, n < f →
      (natDigitsAux f n).foldl (fun a c => a * 10 + digVal c) acc
        = acc * 10 ^ (natDigitsAux f n).length + n := by
  induction f with
  | zero => intro n acc hn; omega
  | succ f ih =>
      intro n acc _
      unfold natDigitsAux
      split
      · rename_i hlt
        simp only [List.foldl_cons, List.foldl_nil, List.length_singleton]
        rw [digVal_digitChar n hlt]
        ring
      · rename_i hge
        rw [List.foldl_append, List.length_append]
        rw [ih (n / 10) acc (by omega)]
        simp only [List.foldl_cons, List.foldl_nil, List.length_singleton]
        rw [digVal_digitChar (n % 10) (by omega)]
        have hsplit : n / 10 * 10 + n % 10 = n := by omega
        set M := 10 ^ (natDigitsAux f (n / 10)).length with hM
        calc (acc * M + n / 10) * 10 + n % 10
            = acc * (M * 10) + (n / 10 * 10 + n % 10) := by ring
          _ = acc * 10 ^ ((natDigitsAux f (n / 10)).length + 1) + n := by
              rw [hsplit, pow_succ]

theorem natDigits_foldl (n : Nat) :
    (natDigits n).foldl (fun a c => a * 10 + digVal c) 0 = n := by
  unfold natDigits
  rw [natDigitsAux_foldl (n + 1) n 0 (by omega)]
  simp

theorem parseDigits_natDigits (n : Nat) (d : Char) (ds rest : List Char)
    (hnd : natDigits n = d :: ds) (hsep : NumSep rest) :
    parseDigits (digVal d) (ds ++ rest) = (n, rest) := by
  have hds : ∀ c ∈ ds, isDigitChar c = true := by
    intro c hc
    exact natDigits_digits n c (by rw [hnd]; simp [hc])
  rw [parseDigits_block ds hds (digVal d) rest hsep]
  have hfold := natDigits_foldl n
  rw [hnd] at hfold
  simp only [List.foldl_cons] at hfold
  rw [Nat.zero_mul, Nat.zero_add] at hfold
  rw [hfold]

/-! ### String round trip -/

theorem hexVal_hexDigitChar : ∀ n < 16, hexVal (hexDigitChar n) = some n := by decide

theorem parseStr_escChar (c : Char) (tail : List Char) (r : List Char × List Char)
    (h : parseStr tail = some r) :
    parseStr (escChar c ++ tail) = some (c :: r.1, r.2) := by
  unfold escChar
  split_ifs with h1 h2 h3 h4 h5 h6 h7 h8
  · subst h1
    rw [List.cons_append, List.cons_append, List.nil_append]
    rw [parseStr]
    rw [if_neg (by decide), if_pos rfl]
    rw [parseEsc, if_neg (by decide)]
    show (match unescChar '"' with
      | some c => Option.map (fun p : List Char × List Char => (c :: p.1, p.2)) (parseStr tail)
      | none => none) = _
    rw [show unescChar '"' = some '"' from by decide]
    rw [h]
    rfl
  · subst h2
    rw [List.cons_append, List.cons_append, List.nil_append]
    rw [parseStr]
    rw [if_neg (by decide), if_pos rfl]
    rw [parseEsc, if_neg (by decide)]
    show (match unescChar '\\' with
      | some c => Option.map (fun p : List Char × List Char => (c :: p.1, p.2)) (parseStr tail)
      | none => none) = _
    rw [show unescChar '\\' = some '\\' from by decide]
    rw [h]
    rfl
  · subst h3
    rw [List.cons_append, List.cons_append, List.nil_append]
    rw [parseStr]
    rw [if_neg (by decide), if_pos rfl]
    rw [parseEsc, if_neg (by decide)]
    show (match unescChar 'b' with
      | some c => Option.map (fun p : List Char × List Char => (c :: p.1, p.2)) (parseStr tail)
      | none => none) = _
    rw [show unescChar 'b' = some (Char.ofNat 8) from by decide]
    rw [h]
    rfl
  · subst h4
    rw [List.cons_append, List.cons_append, List.nil_append]
    rw [parseStr]
    rw [if_neg (by decide), if_pos rfl]
    rw [parseEsc, if_neg (by decide)]
    show (match unescChar 't' with
      | some c => Option.map (fun p : List Char × List Char => (c :: p.1, p.2)) (parseStr tail)
      | none => none) = _
    rw [show unescChar 't' = some (Char.ofNat 9) from by decide]
    rw [h]
    rfl
  · subst h5
    rw [List.cons_append, List.cons_append, List.nil_append]
    rw [parseStr]
    rw [if_neg (by decide), if_pos rfl]
    rw [parseEsc, if_neg (by decide)]
    show (match unescChar 'n' with
      | some c => Option.map (fun p : List Char × List Char => (c :: p.1, p.2)) (parseStr tail)
      | none => none) = _
    rw [show unescChar 'n' = some (Char.ofNat 10) from by decide]
    rw [h]
    rfl
  · subst h6
    rw [List.cons_append, List.cons_append, List.nil_append]
    rw [parseStr]
    rw [if_neg (by decide), if_pos rfl]
    rw [parseEsc, if_neg (by decide)]
    show (match unescChar 'f' with
      | some c => Option.map (fun p : List Char × List Char => (c :: p.1, p.2)) (parseStr tail)
      | none => none) = _
    rw [show unescChar 'f' = some (Char.ofNat 12) from by decide]
    rw [h]
    rfl
  · subst h7
    rw [List.cons_append, List.cons_append, List.nil_append]
    rw [parseStr]
    rw [if_neg (by decide), if_pos rfl]
    rw [parseEsc, if_neg (by decide)]
    show (match unescChar 'r' with
      | some c => Option.map (fun p : List Char × List Char => (c :: p.1, p.2)) (parseStr tail)
      | none => none) = _
    rw [show unescChar 'r' = some (Char.ofNat 13) from by decide]
    rw [h]
    rfl
  · rw [List.cons_append, List.cons_append, List.cons_append, List.cons_append,
      List.cons_append, List.cons_append, List.nil_append]
    rw [parseStr]
    rw [if_neg (by decide), if_pos rfl]
    rw [parseEsc, if_pos rfl]
    rw [parseHex4]
    rw [show hexVal '0' = some 0 from by decide]
    rw [hexVal_hexDigitChar (c.toNat / 16) (by omega),
      hexVal_hexDigitChar (c.toNat % 16) (by omega)]
    show Option.map _ (parseStr tail) = _
    rw [h]
    show some (Char.ofNat (0 * 4096 + 0 * 256 + c.toNat / 16 * 16 + c.toNat % 16) :: r.1, r.2)
      = some (c :: r.1, r.2)
    have harith : 0 * 4096 + 0 * 256 + c.toNat / 16 * 16 + c.toNat % 16 = c.toNat := by omega
    rw [harith, char_ofNat_toNat]
  · rw [List.cons_append, List.nil_append]
    rw [parseStr]
    rw [if_neg h1, if_neg h2, if_neg (by omega)]
    rw [h]
    rfl

theorem parseStr_escString (cs : List Char) :
    ∀ rest, parseStr ((cs.foldr (fun c acc => escChar c ++ acc) []) ++ '"' :: rest)
      = some (cs, rest) := by
  induction cs with
  | nil =>
      intro rest
      rw [List.foldr_nil, List.nil_append]
      rw [parseStr, if_pos rfl]
  | cons c cs ih =>
      intro rest
      rw [List.foldr_cons, List.append_assoc]
      exact parseStr_escChar c _ (cs, rest) (ih rest)

theorem stringMk_data (s : String) : String.mk s.data = s := rfl

theorem parseStr_print (s : String) (rest : List Char) :
    parseStr (escString s ++ '"' :: rest) = some (s.data, rest) := by
  unfold escString
  exact parseStr_escString s.data rest

theorem stripPref_append (lit : List Char) (rest : List Char) :
    stripPref lit (lit ++ rest) = some rest := by
  induction lit with
  | nil => rfl
  | cons l ls ih =>
      rw [List.cons_append, stripPref, if_pos rfl]
      exact ih

/-! ### Json induction, parse cost, head characters -/

/-- Structural induction over `Json` with member hypotheses for the nested
lists. -/
def jsonInduction {P : Json → Prop}
    (hnull : P .null) (hbool : ∀ b, P (.bool b)) (hnum : ∀ n, P (.num n))
    (hstr : ∀ s, P (.str s))
    (harr : ∀ l, (∀ x ∈ l, P x) → P (.arr l))
    (hobj : ∀ l, (∀ p ∈ l, P p.2) → P (.obj l)) : ∀ v, P v
  | .null => hnull
  | .bool b => hbool b
  | .num n => hnum n
  | .str s => hstr s
  | .arr l => harr l (fun x hx =>
      have : sizeOf x < 1 + sizeOf l := by
        have := List.sizeOf_lt_of_mem hx
        omega
      jsonInduction hnull hbool hnum hstr harr hobj x)
  | .obj l => hobj l (fun p hp =>
      have : sizeOf p.2 < 1 + sizeOf l := by
        have h1 := List.sizeOf_lt_of_mem hp
        have h2 : sizeOf p.2 < sizeOf p := by
          obtain ⟨a, b⟩ := p
          simp [Prod.mk.sizeOf_spec]
        omega
      jsonInduction hnull hbool hnum hstr harr hobj p.2)
termination_by v => sizeOf v

mutual

/-- Fuel needed by `parseVal` to read the printed form of a value. -/
def cost : Json → Nat
  | .null => 1
  | .bool _ => 1
  | .num _ => 1
  | .str _ => 1
  | .arr l => 2 + costElems l
  | .obj l => 2 + costFields l

def costElems : List Json → Nat
  | [] => 0
  | x :: rest => cost x + 2 + costElems rest

def costFields : List (String × Json) → Nat
  | [] => 0
  | kv :: rest => cost kv.2 + 3 + costFields rest

end

/-- Characters that can open a printed JSON value. -/
def ValHead (c : Char) : Prop :=
  c = 'n' ∨ c = 't' ∨ c = 'f' ∨ c = '"' ∨ c = '[' ∨ c = lbraceChar ∨ c = '-'
    ∨ isDigitChar c = true

theorem valHead_ne_rbrack (c : Char) (h : ValHead c) : c ≠ ']' := by
  rintro rfl
  rcases h with h | h | h | h | h | h | h | h <;> exact absurd h (by decide)

theorem valHead_ne_rbrace (c : Char) (h : ValHead c) : c ≠ rbraceChar := by
  rintro rfl
  rcases h with h | h | h | h | h | h | h | h <;> exact absurd h (by decide)

theorem digit_not_special (c : Char) (h : isDigitChar c = true) :
    c ≠ 'n' ∧ c ≠ 't' ∧ c ≠ 'f' ∧ c ≠ '"' ∧ c ≠ '[' ∧ c ≠ lbraceChar ∧ c ≠ '-' := by
  refine ⟨?_, ?_, ?_, ?_, ?_, ?_, ?_⟩ <;>
    first
      | exact fun heq => absurd (heq ▸ h) (by decide)

theorem printChars_head (v : Json) :
    ∃ c cs, printChars v = c :: cs ∧ ValHead c := by
  match v with
  | .null => exact ⟨'n', _, rfl, Or.inl rfl⟩
  | .bool true => exact ⟨'t', _, rfl, Or.inr (Or.inl rfl)⟩
  | .bool false => exact ⟨'f', _, rfl, Or.inr (Or.inr (Or.inl rfl))⟩
  | .num n =>
      show ∃ c cs, intChars n = c :: cs ∧ ValHead c
      unfold intChars
      split
      · exact ⟨'-', _, rfl, by unfold ValHead; tauto⟩
      · obtain ⟨d, ds, hnd⟩ := List.exists_cons_of_ne_nil (natDigits_ne_nil n.natAbs)
        refine ⟨d, ds, hnd, ?_⟩
        have : isDigitChar d = true := natDigits_digits n.natAbs d (by rw [hnd]; simp)
        unfold ValHead
        tauto
  | .str s => exact ⟨'"', _, rfl, by unfold ValHead; tauto⟩
  | .arr l => exact ⟨'[', _, rfl, by unfold ValHead; tauto⟩
  | .obj l => exact ⟨lbraceChar, _, rfl, by unfold ValHead; tauto⟩

theorem numSep_cons (c : Char) (r : List Char) (h : isDigitChar c = false) :
    NumSep (c :: r) := by
  intro c' r' heq
  cases heq
  exact h

/-! ### Printer–parser round trip -/

/-- The parser reads back the printed form of `v`, given enough fuel and a
non-digit continuation. -/
def ParsesBack (v : Json) : Prop :=
  ∀ fuel rest, cost v ≤ fuel → NumSep rest →
    parseVal fuel (printChars v ++ rest) = some (v, rest)

theorem cost_pos (v : Json) : 1 ≤ cost v := by
  match v with
  | .null | .bool _ | .num _ | .str _ => simp [cost]
  | .arr l => simp [cost]; omega
  | .obj l => simp [cost]; omega

theorem printElemsChars_cons_head (x : Json) (xs : List Json) :
    ∃ c cs, printElemsChars (x :: xs) = c :: cs ∧ ValHead c := by
  obtain ⟨c, pcs, hpc, hvh⟩ := printChars_head x
  match xs with
  | [] => exact ⟨c, pcs, by simp only [printElemsChars]; exact hpc, hvh⟩
  | y :: ys =>
      refine ⟨c, pcs ++ ',' :: printElemsChars (y :: ys), ?_, hvh⟩
      simp only [printElemsChars]
      rw [hpc, List.cons_append]

theorem printFieldsChars_cons_head (f : String × Json) (fs : List (String × Json)) :
    ∃ cs, printFieldsChars (f :: fs) = '"' :: cs := by
  obtain ⟨k, v⟩ := f
  match fs with
  | [] => exact ⟨_, rfl⟩
  | g :: gs =>
      refine ⟨escString k ++ '"' :: ':' :: (printChars v ++ ',' :: printFieldsChars (g :: gs)), ?_⟩
      simp only [printFieldsChars]
      simp [List.cons_append, List.append_assoc]

theorem parseElems_print (l : List Json) (hne : l ≠ [])
    (hIH : ∀ x ∈ l, ParsesBack x) :
    ∀ fuel rest, costElems l ≤ fuel →
      parseElems fuel (printElemsChars l ++ ']' :: rest) = some (l, rest) := by
  induction l with
  | nil => exact absurd rfl hne
  | cons x xs ih =>
      intro fuel rest hcost
      simp only [costElems] at hcost
      have hcx := cost_pos x
      obtain ⟨s, rfl⟩ : ∃ s, fuel = s + 1 := ⟨fuel - 1, by omega⟩
      match xs with
      | [] =>
          simp only [printElemsChars]
          simp only [parseElems]
          rw [hIH x (by simp) s (']' :: rest) (by omega) (numSep_cons _ _ (by decide))]
          rw [Option.some_bind]
          obtain ⟨s2, rfl⟩ : ∃ s2, s = s2 + 1 := ⟨s - 1, by omega⟩
          simp only [elemsCont]
          simp
      | y :: ys =>
          simp only [printElemsChars]
          rw [List.append_assoc, List.cons_append]
          simp only [parseElems]
          rw [hIH x (by simp) s _ (by omega) (numSep_cons _ _ (by decide))]
          rw [Option.some_bind]
          obtain ⟨s2, rfl⟩ : ∃ s2, s = s2 + 1 := ⟨s - 1, by omega⟩
          simp only [elemsCont, if_true]
          rw [ih (by simp) (fun z hz => hIH z (by simp [hz])) s2 rest (by omega)]
          rfl

theorem parseFields_print (l : List (String × Json)) (hne : l ≠ [])
    (hIH : ∀ p ∈ l, ParsesBack p.2) :
    ∀ fuel rest, costFields l ≤ fuel →
      parseFields fuel (printFieldsChars l ++ rbraceChar :: rest) = some (l, rest) := by
  induction l with
  | nil => exact absurd rfl hne
  | cons f fs ih =>
      obtain ⟨k, v⟩ := f
      intro fuel rest hcost
      simp only [costFields] at hcost
      have hcv := cost_pos v
      obtain ⟨s, rfl⟩ : ∃ s, fuel = s + 1 := ⟨fuel - 1, by omega⟩
      match fs with
      | [] =>
          simp only [printFieldsChars]
          simp only [List.cons_append, List.append_assoc]
          simp only [parseFields, if_true]
          rw [parseStr_print k (':' :: (printChars v ++ rbraceChar :: rest))]
          simp only [Option.some_bind]
          rw [stringMk_data]
          obtain ⟨s1, rfl⟩ : ∃ s1, s = s1 + 1 := ⟨s - 1, by omega⟩
          simp only [fieldsColon, if_true]
          have hIHv : ParsesBack v := hIH (k, v) (by simp)
          rw [hIHv s1 (rbraceChar :: rest) (by omega) (numSep_cons _ _ (by decide))]
          simp only [Option.some_bind]
          obtain ⟨s2, rfl⟩ : ∃ s2, s1 = s2 + 1 := ⟨s1 - 1, by omega⟩
          simp only [fieldsCont]
          rw [if_neg (by decide : ¬rbraceChar = ',')]
          simp
      | g :: gs =>
          simp only [printFieldsChars]
          simp only [List.cons_append, List.append_assoc]
          simp only [parseFields, if_true]
          rw [parseStr_print k
            (':' :: (printChars v ++ ',' :: (printFieldsChars (g :: gs) ++ rbraceChar :: rest)))]
          simp only [Option.some_bind]
          rw [stringMk_data]
          obtain ⟨s1, rfl⟩ : ∃ s1, s = s1 + 1 := ⟨s - 1, by omega⟩
          simp only [fieldsColon, if_true]
          have hIHv : ParsesBack v := hIH (k, v) (by simp)
          rw [hIHv s1 _ (by omega) (numSep_cons _ _ (by decide))]
          simp only [Option.some_bind]
          obtain ⟨s2, rfl⟩ : ∃ s2, s1 = s2 + 1 := ⟨s1 - 1, by omega⟩
          simp only [fieldsCont, if_true]
          rw [ih (by simp) (fun p hp => hIH p (by simp [hp])) s2 rest (by omega)]
          rfl

theorem parsesBack_all (v : Json) : ParsesBack v := by
  induction v using jsonInduction with
  | hnull =>
      intro fuel rest hc hsep
      simp only [cost] at hc
      obtain ⟨s, rfl⟩ : ∃ s, fuel = s + 1 := ⟨fuel - 1, by omega⟩
      show parseVal (s + 1) (printChars Json.null ++ rest) = some (Json.null, rest)
      rw [show printChars Json.null = 'n' :: ['u', 'l', 'l'] from rfl]
      rw [List.cons_append]
      conv_lhs => rw [parseVal]
      rw [if_pos rfl, stripPref_append]
      rfl
  | hbool b =>
      intro fuel rest hc hsep
      simp only [cost] at hc
      obtain ⟨s, rfl⟩ : ∃ s, fuel = s + 1 := ⟨fuel - 1, by omega⟩
      cases b
      · show parseVal (s + 1) (printChars (Json.bool false) ++ rest)
          = some (Json.bool false, rest)
        rw [show printChars (Json.bool false) = 'f' :: ['a', 'l', 's', 'e'] from rfl]
        rw [List.cons_append]
        conv_lhs => rw [parseVal]
        rw [if_neg (by decide), if_neg (by decide), if_pos rfl, stripPref_append]
        rfl
      · show parseVal (s + 1) (printChars (Json.bool true) ++ rest)
          = some (Json.bool true, rest)
        rw [show printChars (Json.bool true) = 't' :: ['r', 'u', 'e'] from rfl]
        rw [List.cons_append]
        conv_lhs => rw [parseVal]
        rw [if_neg (by decide), if_pos rfl, stripPref_append]
        rfl
  | hnum n =>
      intro fuel rest hc hsep
      simp only [cost] at hc
      obtain ⟨s, rfl⟩ : ∃ s, fuel = s + 1 := ⟨fuel - 1, by omega⟩
      show parseVal (s + 1) (printChars (Json.num n) ++ rest) = some (Json.num n, rest)
      rw [show printChars (Json.num n) = intChars n from rfl]
      unfold intChars
      obtain ⟨d, ds, hnd⟩ := List.exists_cons_of_ne_nil (natDigits_ne_nil n.natAbs)
      have hd : isDigitChar d = true := natDigits_digits n.natAbs d (by rw [hnd]; simp)
      by_cases hneg : n < 0
      · rw [if_pos hneg, hnd]
        rw [List.cons_append, List.cons_append]
        conv_lhs => rw [parseVal]
        rw [if_neg (by decide), if_neg (by decide), if_neg (by decide), if_neg (by decide),
          if_neg (by decide), if_neg (by decide), if_pos rfl]
        conv_lhs => rw [parseNegRest]
        rw [if_pos hd]
        rw [parseDigits_natDigits n.natAbs d ds rest hnd hsep]
        show some (Json.num (-((n.natAbs : Int))), rest) = some (Json.num n, rest)
        have harith : -((n.natAbs : Int)) = n := by omega
        rw [harith]
      · rw [if_neg hneg, hnd]
        rw [List.cons_append]
        conv_lhs => rw [parseVal]
        obtain ⟨hn1, hn2, hn3, hn4, hn5, hn6, hn7⟩ := digit_not_special d hd
        rw [if_neg hn1, if_neg hn2, if_neg hn3, if_neg hn4, if_neg hn5, if_neg hn6,
          if_neg hn7, if_pos hd]
        rw [parseDigits_natDigits n.natAbs d ds rest hnd hsep]
        show some (Json.num ((n.natAbs : Int)), rest) = some (Json.num n, rest)
        have harith : ((n.natAbs : Int)) = n := by omega
        rw [harith]
  | hstr s =>
      intro fuel rest hc hsep
      simp only [cost] at hc
      obtain ⟨s1, rfl⟩ : ∃ t, fuel = t + 1 := ⟨fuel - 1, by omega⟩
      show parseVal (s1 + 1) (printChars (Json.str s) ++ rest) = some (Json.str s, rest)
      rw [show printChars (Json.str s) = '"' :: (escString s ++ ['"']) from rfl]
      rw [List.cons_append, List.append_assoc]
      rw [show (['"'] : List Char) ++ rest = '"' :: rest from rfl]
      conv_lhs => rw [parseVal]
      rw [if_neg (by decide), if_neg (by decide), if_neg (by decide), if_pos rfl]
      rw [parseStr_print s rest]
      rfl
  | harr l hIH =>
      intro fuel rest hc hsep
      simp only [cost] at hc
      obtain ⟨s, rfl⟩ : ∃ s, fuel = s + 1 := ⟨fuel - 1, by omega⟩
      obtain ⟨s2, rfl⟩ : ∃ s2, s = s2 + 1 := ⟨s - 1, by omega⟩
      show parseVal (s2 + 1 + 1) (printChars (Json.arr l) ++ rest) = some (Json.arr l, rest)
      rw [show printChars (Json.arr l) = '[' :: (printElemsChars l ++ [']']) from rfl]
      rw [List.cons_append, List.append_assoc]
      rw [show ([']'] : List Char) ++ rest = ']' :: rest from rfl]
      conv_lhs => rw [parseVal]
      rw [if_neg (by decide), if_neg (by decide), if_neg (by decide), if_neg (by decide),
        if_pos rfl]
      cases l with
      | nil =>
          rw [show printElemsChars [] ++ ']' :: rest = ']' :: rest from rfl]
          conv_lhs => rw [parseArrRest]
          rw [if_pos rfl]
      | cons x xs =>
          obtain ⟨c, cs, hpe, hvh⟩ := printElemsChars_cons_head x xs
          rw [hpe, List.cons_append]
          conv_lhs => rw [parseArrRest]
          rw [if_neg (valHead_ne_rbrack c hvh)]
          rw [← List.cons_append, ← hpe]
          rw [parseElems_print (x :: xs) (by simp) hIH s2 rest (by omega)]
          rfl
  | hobj l hIH =>
      intro fuel rest hc hsep
      simp only [cost] at hc
      obtain ⟨s, rfl⟩ : ∃ s, fuel = s + 1 := ⟨fuel - 1, by omega⟩
      obtain ⟨s2, rfl⟩ : ∃ s2, s = s2 + 1 := ⟨s - 1, by omega⟩
      show parseVal (s2 + 1 + 1) (printChars (Json.obj l) ++ rest) = some (Json.obj l, rest)
      rw [show printChars (Json.obj l)
        = lbraceChar :: (printFieldsChars l ++ [rbraceChar]) from rfl]
      rw [List.cons_append, List.append_assoc]
      rw [show ([rbraceChar] : List Char) ++ rest = rbraceChar :: rest from rfl]
      conv_lhs => rw [parseVal]
      rw [if_neg (by decide), if_neg (by decide), if_neg (by decide), if_neg (by decide),
        if_neg (by decide), if_pos rfl]
      cases l with
      | nil =>
          rw [show printFieldsChars [] ++ rbraceChar :: rest = rbraceChar :: rest from rfl]
          conv_lhs => rw [parseObjRest]
          rw [if_pos rfl]
      | cons f fs =>
          obtain ⟨cs, hpf⟩ := printFieldsChars_cons_head f fs
          rw [hpf, List.cons_append]
          conv_lhs => rw [parseObjRest]
          rw [if_neg (by decide : ¬('"' : Char) = rbraceChar)]
          rw [← List.cons_append, ← hpf]
          rw [parseFields_print (f :: fs) (by simp) hIH s2 rest (by omega)]
          rfl

theorem costElems_le (l : List Json)
    (h : ∀ x ∈ l, cost x ≤ 2 * (printChars x).length) :
    costElems l ≤ 2 + 2 * (printElemsChars l).length := by
  induction l with
  | nil => simp [costElems]
  | cons x xs ih =>
      have hx := h x (by simp)
      cases xs with
      | nil =>
          simp only [costElems, printElemsChars]
          omega
      | cons y ys =>
          have hrec := ih (fun z hz => h z (by simp [hz]))
          simp only [costElems, printElemsChars, List.length_append, List.length_cons] at *
          omega

theorem costFields_le (l : List (String × Json))
    (h : ∀ p ∈ l, cost p.2 ≤ 2 * (printChars p.2).length) :
    costFields l ≤ 2 + 2 * (printFieldsChars l).length := by
  induction l with
  | nil => simp [costFields]
  | cons f fs ih =>
      obtain ⟨k, v⟩ := f
      have hx : cost v ≤ 2 * (printChars v).length := h (k, v) (by simp)
      cases fs with
      | nil =>
          simp only [costFields, printFieldsChars, List.length_append, List.length_cons] at *
          omega
      | cons g gs =>
          have hrec := ih (fun p hp => h p (by simp [hp]))
          simp only [costFields, printFieldsChars, List.length_append, List.length_cons] at *
          omega

theorem cost_le_two_mul_len (v : Json) : cost v ≤ 2 * (printChars v).length := by
  induction v using jsonInduction with
  | hnull => simp [cost, printChars]
  | hbool b => cases b <;> simp [cost, printChars]
  | hnum n =>
      simp only [cost]
      have h1 : 1 ≤ (printChars (Json.num n)).length := by
        rw [show printChars (Json.num n) = intChars n from rfl]
        unfold intChars
        obtain ⟨d, ds, hnd⟩ := List.exists_cons_of_ne_nil (natDigits_ne_nil n.natAbs)
        split <;> simp [hnd]
      omega
  | hstr s =>
      simp only [cost]
      have h1 : 1 ≤ (printChars (Json.str s)).length := by
        rw [show printChars (Json.str s) = '"' :: (escString s ++ ['"']) from rfl]
        simp
      omega
  | harr l hIH =>
      have := costElems_le l hIH
      rw [show printChars (Json.arr l) = '[' :: (printElemsChars l ++ [']']) from rfl]
      simp only [cost, List.length_cons, List.length_append, List.length_singleton]
      omega
  | hobj l hIH =>
      have := costFields_le l hIH
      rw [show printChars (Json.obj l)
        = lbraceChar :: (printFieldsChars l ++ [rbraceChar]) from rfl]
      simp only [cost, List.length_cons, List.length_append, List.length_singleton]
      omega

theorem json_roundtrip (v : Json) : jsonParse (jsonStringify v) = some v := by
  unfold jsonParse jsonStringify
  rw [show (String.mk (printChars v)).data = printChars v from rfl]
  have h := parsesBack_all v (2 * (printChars v).length + 2) []
    (by have := cost_le_two_mul_len v; omega) numSep_nil
  rw [List.append_nil] at h
  rw [h]

/-! ## Symbolic cryptographic primitives (external collaborators) -/

/-- Four-byte little-endian length framing. -/
def lenBytes (n : Nat) : Bytes := [n % 256, n / 256 % 256, n / 65536 % 256, n / 16777216 % 256]

/-- Length-framed byte string: concatenations of frames are injective
componentwise once the component lengths agree. -/
def frame (bs : Bytes) : Bytes := lenBytes bs.length ++ bs

/-- Symbolic AES-256-GCM authentication tag: binds key, iv, associated data
and plaintext. An ideal AEAD authenticates exactly these four inputs. -/
def gcmTag (key iv aad pt : Bytes) : Bytes := frame key ++ frame iv ++ frame aad ++ frame pt

/-- Symbolic AES-256-GCM encryption: the ciphertext is the plaintext byte
string (GCM is length preserving; no claim concerns confidentiality), the
authentication strength lives in the tag. -/
def gcmEncrypt (key iv aad pt : Bytes) : Bytes × Bytes := (pt, gcmTag key iv aad pt)

/-- Symbolic AEAD decryption: succeeds exactly when the recomputed tag
matches (`decipher.final()` throws otherwise). -/
def gcmDecrypt (key iv aad tag ct : Bytes) : Option Bytes :=
  if tag = gcmTag key iv aad ct then some ct else none

theorem frame_length (bs : Bytes) : (frame bs).length = 4 + bs.length := by
  simp [frame, lenBytes]
  omega

theorem frame_wf (bs : Bytes) (h : WfBytes bs) : WfBytes (frame bs) := by
  intro b hb
  simp only [frame, lenBytes, List.cons_append, List.nil_append, List.mem_cons,
    List.mem_append] at hb
  rcases hb with rfl | rfl | rfl | rfl | hb
  · omega
  · omega
  · omega
  · omega
  · exact h b hb

theorem gcmTag_wf (key iv aad pt : Bytes) (hk : WfBytes key) (hiv : WfBytes iv)
    (haad : WfBytes aad) (hpt : WfBytes pt) : WfBytes (gcmTag key iv aad pt) := by
  intro b hb
  simp only [gcmTag, List.mem_append] at hb
  rcases hb with ((hb | hb) | hb) | hb
  · exact frame_wf key hk b hb
  · exact frame_wf iv hiv b hb
  · exact frame_wf aad haad b hb
  · exact frame_wf pt hpt b hb

theorem gcmTag_ne_nil (key iv aad pt : Bytes) : gcmTag key iv aad pt ≠ [] := by
  simp [gcmTag, frame, lenBytes]

theorem frame_inj (a b : Bytes) (h : frame a = frame b) : a = b := by
  have := congrArg (List.drop 4) h
  simpa [frame, lenBytes] using this

theorem gcmTag_inj (k1 k2 iv a1 a2 p : Bytes) (hlen : k1.length = k2.length)
    (h : gcmTag k1 iv a1 p = gcmTag k2 iv a2 p) : k1 = k2 ∧ a1 = a2 := by
  unfold gcmTag at h
  rw [List.append_assoc, List.append_assoc, List.append_assoc, List.append_assoc] at h
  obtain ⟨hk, hrest⟩ := List.append_inj h (by rw [frame_length, frame_length, hlen])
  obtain ⟨-, hrest2⟩ := List.append_inj hrest rfl
  have hlen2 : a1.length = a2.length := by
    have := congrArg List.length hrest2
    simp only [List.length_append, frame_length] at this
    omega
  obtain ⟨ha, -⟩ := List.append_inj hrest2 (by rw [frame_length, frame_length, hlen2])
  exact ⟨frame_inj _ _ hk, frame_inj _ _ ha⟩

/-- Symbolic `deflateSync`: marks the stream with the zlib header byte. -/
def deflateSync (bs : Bytes) : Bytes := 0x78 :: bs

/-- Symbolic `inflateSync`: accepts exactly what `deflateSync` produced;
`none` models the exception thrown on corrupt streams. -/
def inflateSync : Bytes → Option Bytes
  | 0x78 :: bs => some bs
  | _ => none

/-- One byte of the symbolic HMAC digest. -/
def hmacMix (i : Nat) (bs : Bytes) : Nat :=
  bs.foldl (fun a b => (a * 31 + b + i * 7) % 256) (i % 256)

/-- Symbolic HMAC-SHA256: a deterministic 32-byte digest of key and
message. -/
def hmac32 (key msg : Bytes) : Bytes :=
  (List.range 32).map (fun i => hmacMix i (frame key ++ msg))

/-- Lowercase hex rendering of a byte string. -/
def hexChars (bs : Bytes) : List Char :=
  bs.foldr (fun b acc => hexDigitChar (b / 16) :: hexDigitChar (b % 16) :: acc) []

/-- Model of `createHmac('sha256', key).update(msg).digest('hex')`. -/
def hmacHex (key : Bytes) (msg : String) : String :=
  String.mk (hexChars (hmac32 key (utf8Encode msg)))

/-! ## JavaScript semantics helpers -/

/-- The exceptions the class can surface. `decryption` is
`DecryptionException` with its message (default: the generic tamper text);
`errorMsg` is a plain `Error` from the constructor; `typeError` models the
`TypeError` Node throws when `Buffer.from` receives a non-string field. -/
inductive JsError where
  | decryption (msg : String)
  | errorMsg (msg : String)
  | typeError

/-- The `DecryptionException` default message. -/
def defaultMsg : String := "The payload is invalid or has been tampered with."

/-- JS truthiness of an optional string (absent and `""` are falsy). -/
def strTruthy : Option String → Bool
  | none => false
  | some s => !(s == "")

/-- JS truthiness of an optional boolean. -/
def boolTruthy : Option Bool → Bool
  | none => false
  | some b => b

/-- JS truthiness of a JSON value (`null`, `false`, `0`, `""` falsy). -/
def jsonTruthy : Json → Bool
  | .null => false
  | .bool b => b
  | .num n => !(n == 0)
  | .str s => !(s == "")
  | .arr _ => true
  | .obj _ => true

/-- Truthiness of a possibly absent property (`undefined` falsy). -/
def optTruthy : Option Json → Bool
  | none => false
  | some j => jsonTruthy j

/-- Property access on a parsed JSON value: objects only, later duplicate
keys win (as in `JSON.parse`). -/
def jGet (j : Json) (k : String) : Option Json :=
  match j with
  | .obj fields => fields.foldl (fun acc p => if p.1 = k then some p.2 else acc) none
  | _ => none

/-- A property that is present and a string. -/
def asStr : Option Json → Option String
  | some (.str s) => some s
  | _ => none

/-- Strict `x === true` on a possibly absent property. -/
def isTrueJson : Option Json → Bool
  | some (.bool true) => true
  | _ => false

/-- Integer reading of a digit list. -/
def digitsToNat (cs : List Char) : Nat := cs.foldl (fun a c => a * 10 + digVal c) 0

/-- Model of `Number(s)` for the strings that can reach the expiry comparison:
decimal integer numerals (with optional sign); everything else is NaN
(`none`). -/
def parseJsInt (cs : List Char) : Option Int :=
  match cs with
  | '-' :: rest =>
      if rest ≠ [] ∧ rest.all isDigitChar then some (-(digitsToNat rest : Int)) else none
  | _ => if cs ≠ [] ∧ cs.all isDigitChar then some (digitsToNat cs : Int) else none

/-- JS numeric coercion of a JSON value, `none` for NaN. Arrays and objects
are approximated as NaN; only forged payloads with non-numeric `exp` fields
could tell the difference, and no claim quantifies over those. -/
def jsToNumber : Json → Option Int
  | .null => some 0
  | .bool true => some 1
  | .bool false => some 0
  | .num n => some n
  | .str s => if s = "" then some 0 else parseJsInt s.data
  | .arr _ => none
  | .obj _ => none

/-- The test `jsonPayload.exp && Date.now() > jsonPayload.exp` (comparison against
NaN is false). -/
def expExceeded (e : Option Json) (now : Int) : Bool :=
  optTruthy e &&
    (match e with
      | some j =>
          (match jsToNumber j with
            | some x => decide (now > x)
            | none => false)
      | none => false)

mutual

/-- Model of `String(value)` on the modelled value universe. -/
def jsToString : Json → String
  | .null => "null"
  | .bool true => "true"
  | .bool false => "false"
  | .num n => String.mk (intChars n)
  | .str s => s
  | .arr l => String.mk (jsArrJoin l)
  | .obj _ => "[object Object]"

/-- Model of `Array.prototype.toString`: elements joined with commas. -/
def jsArrJoin : List Json → List Char
  | [] => []
  | [x] => jsElemChars x
  | x :: y :: rest => jsElemChars x ++ ',' :: jsArrJoin (y :: rest)

/-- One joined element; `null` renders empty. -/
def jsElemChars : Json → List Char
  | .null => []
  | .bool true => "true".data
  | .bool false => "false".data
  | .num n => intChars n
  | .str s => s.data
  | .arr l => jsArrJoin l
  | .obj _ => "[object Object]".data

end

/-! ## The `Encrypter` class -/

namespace Encrypter

/-- Method `parseKey(key)`: a `base64:`-labelled key is decoded, anything else is
taken as the UTF-8 bytes of the string. -/
def parseKey (key : String) : Bytes :=
  if key.startsWith "base64:" then base64Decode (key.drop 7) else utf8Encode key

/-- The constructor over a key array (`new Encrypter(key)` with a single
string is `construct [key]`): parse every key spec, then require a
non-empty list of exactly-32-byte keys. The result is the validated
`this.keys` field; `.error` is the thrown `Error`. -/
def construct (keySpecs : List String) : Except JsError (List Bytes) :=
  let keys := keySpecs.map parseKey
  if keys.length = 0 then
    .error (.errorMsg "At least one encryption key must be provided.")
  else if keys.all (fun k => decide (k.length = 32)) then .ok keys
  else .error (.errorMsg "Each encryption key must be 32 bytes.")

/-- A key ring the constructor would accept (with genuine byte entries, as
`parseKey` always produces). -/
def ValidKeys (keys : List Bytes) : Prop :=
  keys ≠ [] ∧ ∀ k ∈ keys, k.length = 32 ∧ WfBytes k

/-- Call-level options of `encrypt`. -/
structure EncOpts where
  serialize : Option Bool
  compress : Option Bool
  ttl : Option Int
  context : Option String

/-- Empty options object. -/
def noEncOpts : EncOpts := ⟨none, none, none, none⟩

/-- Call-level options of `decrypt`. -/
structure DecOpts where
  unserialize : Option Bool
  context : Option String

/-- Empty options object. -/
def noDecOpts : DecOpts := ⟨none, none⟩

/-- The associated data `encrypt` binds: `if (options.context)
cipher.setAAD(Buffer.from(options.context))`. -/
def envAad (o : EncOpts) : Bytes :=
  if strTruthy o.context then utf8Encode (o.context.getD "") else []

/-- The plaintext bytes `encrypt` feeds the cipher: `serialize` (default
on) applies `JSON.stringify`, otherwise `String(value)`; `compress ===
true` applies `deflateSync`. -/
def envData (value : Json) (o : EncOpts) : Bytes :=
  let data0 : Bytes :=
    if o.serialize = some false then utf8Encode (jsToString value)
    else utf8Encode (jsonStringify value)
  if o.compress = some true then deflateSync data0 else data0

/-- The payload object `encrypt` builds: required `iv`/`value`/`tag`/`v`
fields, then `c` iff compress is truthy, `exp = Date.now() + ttl * 1000`
iff ttl is truthy, `aad: true` iff a context is truthy. Encryption always
uses `this.keys[0]`. -/
def envelope (keys : List Bytes) (iv : Bytes) (now : Int) (value : Json) (o : EncOpts) :
    Json :=
  Json.obj
    ([("iv", Json.str (base64Encode iv)),
      ("value", Json.str (base64Encode (gcmEncrypt (keys.headD []) iv (envAad o)
        (envData value o)).1)),
      ("tag", Json.str (base64Encode (gcmEncrypt (keys.headD []) iv (envAad o)
        (envData value o)).2)),
      ("v", Json.num 1)]
      ++ (if boolTruthy o.compress then [("c", Json.bool true)] else [])
      ++ (match o.ttl with
          | some t => if t = 0 then [] else [("exp", Json.num (now + t * 1000))]
          | none => [])
      ++ (if strTruthy o.context then [("aad", Json.bool true)] else []))

/-- Method `encrypt(value, options)`. The `iv` argument stands for the
`randomBytes(16)` draw and `now` for `Date.now()`; the body is the payload
object above, `JSON.stringify`-ed and base64-encoded. -/
def encrypt (keys : List Bytes) (iv : Bytes) (now : Int) (value : Json) (o : EncOpts) :
    String :=
  base64Encode (utf8Encode (jsonStringify (envelope keys iv now value o)))

/-- Method `validPayload(payload)`: `typeof payload === 'object' && payload !==
null && payload.iv && payload.value && payload.tag` (JS truthiness; arrays
pass `typeof` but own none of the properties). -/
def validPayload (j : Json) : Bool :=
  (match j with
    | .obj _ => true
    | .arr _ => true
    | _ => false)
    && optTruthy (jGet j "iv") && optTruthy (jGet j "value") && optTruthy (jGet j "tag")

/-- Method `getJsonPayload(payload)`: base64, then `JSON.parse`, then shape check;
every failure inside the `try` collapses to one fresh generic
`DecryptionException`. -/
def getJsonPayload (payload : String) : Except JsError Json :=
  match jsonParse (utf8Decode (base64Decode payload)) with
  | none => .error (.decryption defaultMsg)
  | some data =>
      if validPayload data then .ok data else .error (.decryption defaultMsg)

/-- One iteration of the rotation loop body; `none` is the caught and
swallowed failure (`continue`). -/
def attemptKey (k iv tag : Bytes) (valueField : Option Json) (aad : Bytes)
    (compressed : Bool) (unser : Bool) : Option Json :=
  match valueField with
  | some (.str valueB64) =>
      match gcmDecrypt k iv aad tag (base64Decode valueB64) with
      | some pt =>
          match (if compressed then inflateSync pt else some pt) with
          | some res =>
              if unser then jsonParse (utf8Decode res)
              else some (Json.str (utf8Decode res))
          | none => none
      | none => none
  | _ => none

/-- The rotation loop, instrumented: the second component counts
`createDecipheriv` attempts. -/
def tryKeysT (keys : List Bytes) (iv tag : Bytes) (valueField : Option Json)
    (aad : Bytes) (compressed : Bool) (unser : Bool) : Except JsError Json × Nat :=
  match keys with
  | [] => (.error (.decryption defaultMsg), 0)
  | k :: rest =>
      match attemptKey k iv tag valueField aad compressed unser with
      | some j => (.ok j, 1)
      | none =>
          ((tryKeysT rest iv tag valueField aad compressed unser).1,
            (tryKeysT rest iv tag valueField aad compressed unser).2 + 1)

/-- Method `decrypt(payload, options)`, instrumented with the count of
cryptographic attempts (0 when rejection precedes the key loop). -/
def decryptT (keys : List Bytes) (payload : String) (o : DecOpts) (now : Int) :
    Except JsError Json × Nat :=
  match getJsonPayload payload with
  | .error e => (.error e, 0)
  | .ok jp =>
      if expExceeded (jGet jp "exp") now then
        (.error (.decryption "The payload has expired."), 0)
      else if optTruthy (jGet jp "aad") && !strTruthy o.context then
        (.error (.decryption "The payload requires a context for decryption."), 0)
      else
        match asStr (jGet jp "iv"), asStr (jGet jp "tag") with
        | some ivs, some tags =>
            tryKeysT keys (base64Decode ivs) (base64Decode tags) (jGet jp "value")
              (if strTruthy o.context then utf8Encode (o.context.getD "") else [])
              (isTrueJson (jGet jp "c")) (!(o.unserialize == some false))
        | _, _ => (.error .typeError, 0)

/-- Method `decrypt(payload, options)`. -/
def decrypt (keys : List Bytes) (payload : String) (o : DecOpts) (now : Int) :
    Except JsError Json :=
  (decryptT keys payload o now).1

/-- Method `hash(value)`: HMAC-SHA256 hex digest under the active key. -/
def hash (keys : List Bytes) (value : String) : String := hmacHex (keys.headD []) value

/-- Method `sign(value)`. -/
def sign (keys : List Bytes) (value : Json) : String :=
  base64Encode (utf8Encode (jsonStringify (Json.obj
    [("value", Json.str (jsonStringify value)),
      ("signature", Json.str (hash keys (jsonStringify value)))])))

/-- The verification loop. `some (some m)`: a key matched (`m` the stored
value); `some none`: the loop ran out of keys; `none`: `timingSafeEqual`
threw on a length mismatch, aborting the loop. -/
def verifyKeys (keys : List Bytes) (msg sig : String) : Option (Option String) :=
  match keys with
  | [] => some none
  | k :: rest =>
      if (utf8Encode (hmacHex k msg)).length ≠ (utf8Encode sig).length then none
      else if hmacHex k msg = sig then some (some msg)
      else verifyKeys rest msg sig

/-- Method `verify(payload)`: every failure inside the outer `try` (including the
deliberately thrown invalid-payload exception) falls through to the single
final `DecryptionException('Signature verification failed.')`. -/
def verify (keys : List Bytes) (payload : String) : Except JsError Json :=
  match jsonParse (utf8Decode (base64Decode payload)) with
  | none => .error (.decryption "Signature verification failed.")
  | some decoded =>
      if !(optTruthy (jGet decoded "value")) || !(optTruthy (jGet decoded "signature")) then
        .error (.decryption "Signature verification failed.")
      else
        match asStr (jGet decoded "value"), asStr (jGet decoded "signature") with
        | some v, some sig =>
            match verifyKeys keys v sig with
            | some (some m) =>
                (match jsonParse m with
                  | some j => .ok j
                  | none => .error (.decryption "Signature verification failed."))
            | _ => .error (.decryption "Signature verification failed.")
        | _, _ => .error (.decryption "Signature verification failed.")

/-- Entry point threading the process randomness source: `encrypt` consumes
one `randomBytes(16)` draw. -/
def encryptR (rng : List Bytes) (keys : List Bytes) (now : Int) (value : Json)
    (o : EncOpts) : String × List Bytes :=
  (encrypt keys (rng.headD []) now value o, rng.tail)

/-- Entry point threading the process randomness source: `sign` draws no
randomness at all. -/
def signR (rng : List Bytes) (keys : List Bytes) (value : Json) : String × List Bytes :=
  (sign keys value, rng)

end Encrypter

/-! ## Supporting lemmas about the envelope and the rotation loop -/

theorem foldl_jGet_skip (extra : List (String × Json)) (k : String)
    (h : ∀ p ∈ extra, p.1 ≠ k) (acc : Option Json) :
    extra.foldl (fun acc p => if p.1 = k then some p.2 else acc) acc = acc := by
  induction extra generalizing acc with
  | nil => rfl
  | cons p ps ih =>
      simp only [List.foldl_cons]
      rw [if_neg (h p (by simp))]
      exact ih (fun q hq => h q (by simp [hq])) acc

theorem jGet_obj_append_skip (fields extra : List (String × Json)) (k : String)
    (h : ∀ p ∈ extra, p.1 ≠ k) :
    jGet (Json.obj (fields ++ extra)) k = jGet (Json.obj fields) k := by
  show (fields ++ extra).foldl (fun acc p => if p.1 = k then some p.2 else acc) none
    = fields.foldl (fun acc p => if p.1 = k then some p.2 else acc) none
  rw [List.foldl_append, foldl_jGet_skip extra k h]

theorem jGet_obj_append_last (fields : List (String × Json)) (k : String) (v : Json) :
    jGet (Json.obj (fields ++ [(k, v)])) k = some v := by
  show (fields ++ [(k, v)]).foldl (fun acc p => if p.1 = k then some p.2 else acc) none
    = some v
  rw [List.foldl_append]
  simp

theorem jsonStringify_ne_empty (v : Json) : jsonStringify v ≠ "" := by
  obtain ⟨c, cs, hpc, -⟩ := printChars_head v
  unfold jsonStringify
  rw [hpc]
  intro h
  exact absurd (congrArg String.data h) (by simp)

theorem utf8EncodeChar_ne_nil (n : Nat) : utf8EncodeChar n ≠ [] := by
  unfold utf8EncodeChar
  split
  · simp
  · split
    · simp
    · split <;> simp

theorem utf8Encode_ne_nil (s : String) (h : s ≠ "") : utf8Encode s ≠ [] := by
  unfold utf8Encode
  match hs : s.data with
  | [] => exact absurd (by apply String.ext; simp [hs]) h
  | c :: rest =>
      simp only [List.foldr_cons]
      intro hx
      exact utf8EncodeChar_ne_nil c.toNat (List.append_eq_nil.mp hx).1

namespace Encrypter

theorem jGet_envelope_opt_skip (keys : List Bytes) (iv : Bytes) (now : Int) (v : Json)
    (o : EncOpts) (k : String) (h1 : k ≠ "c") (h2 : k ≠ "exp") (h3 : k ≠ "aad") :
    jGet (envelope keys iv now v o) k
      = jGet (Json.obj [("iv", Json.str (base64Encode iv)),
          ("value", Json.str (base64Encode (gcmEncrypt (keys.headD []) iv (envAad o)
            (envData v o)).1)),
          ("tag", Json.str (base64Encode (gcmEncrypt (keys.headD []) iv (envAad o)
            (envData v o)).2)),
          ("v", Json.num 1)]) k := by
  unfold envelope
  rw [jGet_obj_append_skip, jGet_obj_append_skip, jGet_obj_append_skip]
  · intro p hp
    split at hp
    · simp at hp
      rw [hp]
      exact h1.symm
    · simp at hp
  · intro p hp
    match ht : o.ttl with
    | none => rw [ht] at hp; simp at hp
    | some t =>
        rw [ht] at hp
        by_cases htz : t = 0
        · simp [htz] at hp
        · simp [htz] at hp
          rw [hp]
          exact h2.symm
  · intro p hp
    split at hp
    · simp at hp
      rw [hp]
      exact h3.symm
    · simp at hp

theorem jGet_base_iv (a b c : String) :
    jGet (Json.obj [("iv", Json.str a), ("value", Json.str b), ("tag", Json.str c),
      ("v", Json.num 1)]) "iv" = some (Json.str a) := rfl

theorem jGet_base_value (a b c : String) :
    jGet (Json.obj [("iv", Json.str a), ("value", Json.str b), ("tag", Json.str c),
      ("v", Json.num 1)]) "value" = some (Json.str b) := rfl

theorem jGet_base_tag (a b c : String) :
    jGet (Json.obj [("iv", Json.str a), ("value", Json.str b), ("tag", Json.str c),
      ("v", Json.num 1)]) "tag" = some (Json.str c) := rfl

theorem validPayload_envelope (keys : List Bytes) (iv : Bytes) (now : Int) (v : Json)
    (o : EncOpts) (hiv : iv ≠ []) (hdata : envData v o ≠ []) :
    validPayload (envelope keys iv now v o) = true := by
  unfold validPayload
  rw [jGet_envelope_opt_skip keys iv now v o "iv" (by decide) (by decide) (by decide),
    jGet_envelope_opt_skip keys iv now v o "value" (by decide) (by decide) (by decide),
    jGet_envelope_opt_skip keys iv now v o "tag" (by decide) (by decide) (by decide),
    jGet_base_iv, jGet_base_value, jGet_base_tag]
  rw [show (match envelope keys iv now v o with
    | Json.obj _ => true
    | Json.arr _ => true
    | _ => false) = true from by unfold envelope; rfl]
  have ha : (base64Encode iv == "") = false := by
    rw [beq_eq_false_iff_ne]
    exact base64Encode_ne_empty iv hiv
  have hb : (base64Encode (gcmEncrypt (keys.headD []) iv (envAad o) (envData v o)).1
      == "") = false := by
    rw [beq_eq_false_iff_ne]
    exact base64Encode_ne_empty _ hdata
  have hc : (base64Encode (gcmEncrypt (keys.headD []) iv (envAad o) (envData v o)).2
      == "") = false := by
    rw [beq_eq_false_iff_ne]
    exact base64Encode_ne_empty _ (gcmTag_ne_nil _ _ _ _)
  simp [optTruthy, jsonTruthy, ha, hb, hc]
  refine ⟨?_, ?_⟩
  · exact base64Encode_ne_empty _ hdata
  · exact base64Encode_ne_empty _ (gcmTag_ne_nil _ _ _ _)

theorem getJsonPayload_encrypt (keys : List Bytes) (iv : Bytes) (now : Int) (v : Json)
    (o : EncOpts) (hiv : iv ≠ []) (hdata : envData v o ≠ []) :
    getJsonPayload (encrypt keys iv now v o) = .ok (envelope keys iv now v o) := by
  unfold getJsonPayload encrypt
  rw [base64_roundtrip _ (utf8Encode_wf _), utf8_roundtrip, json_roundtrip]
  show (if validPayload (envelope keys iv now v o) = true
    then Except.ok (envelope keys iv now v o)
    else Except.error (JsError.decryption defaultMsg)) = Except.ok (envelope keys iv now v o)
  rw [validPayload_envelope keys iv now v o hiv hdata]
  rfl

theorem attemptKey_hit (k0 iv data aad : Bytes) (compressed unser : Bool)
    (hdata : WfBytes data) :
    attemptKey k0 iv (gcmTag k0 iv aad data) (some (.str (base64Encode data))) aad
      compressed unser
      = (match (if compressed then inflateSync data else some data) with
          | some res =>
              if unser then jsonParse (utf8Decode res) else some (Json.str (utf8Decode res))
          | none => none) := by
  show (match gcmDecrypt k0 iv aad (gcmTag k0 iv aad data)
      (base64Decode (base64Encode data)) with
    | some pt =>
        (match (if compressed then inflateSync pt else some pt) with
          | some res =>
              if unser then jsonParse (utf8Decode res) else some (Json.str (utf8Decode res))
          | none => none)
    | none => none) = _
  rw [base64_roundtrip data hdata]
  unfold gcmDecrypt
  rw [if_pos rfl]

theorem attemptKey_miss (k k0 iv data aad aad2 : Bytes) (compressed unser : Bool)
    (hdata : WfBytes data) (hk : k.length = 32) (hk0 : k0.length = 32)
    (hne : k ≠ k0 ∨ aad2 ≠ aad) :
    attemptKey k iv (gcmTag k0 iv aad data) (some (.str (base64Encode data))) aad2
      compressed unser = none := by
  show (match gcmDecrypt k iv aad2 (gcmTag k0 iv aad data)
      (base64Decode (base64Encode data)) with
    | some pt =>
        (match (if compressed then inflateSync pt else some pt) with
          | some res =>
              if unser then jsonParse (utf8Decode res) else some (Json.str (utf8Decode res))
          | none => none)
    | none => none) = none
  rw [base64_roundtrip data hdata]
  unfold gcmDecrypt
  rw [if_neg ?_]
  intro h
  obtain ⟨hkk, haa⟩ := gcmTag_inj k0 k iv aad aad2 data (hk0.trans hk.symm) h
  rcases hne with hx | hx
  · exact hx hkk.symm
  · exact hx haa.symm

theorem tryKeysT_hit (dkeys : List Bytes) (k0 iv data aad : Bytes) (c u : Bool) (j : Json)
    (hall : ∀ k ∈ dkeys, k.length = 32) (hk0 : k0.length = 32) (hmem : k0 ∈ dkeys)
    (hdata : WfBytes data)
    (hpost : (match (if c then inflateSync data else some data) with
        | some res =>
            if u then jsonParse (utf8Decode res) else some (Json.str (utf8Decode res))
        | none => none) = some j) :
    (tryKeysT dkeys iv (gcmTag k0 iv aad data) (some (.str (base64Encode data))) aad c u).1
      = .ok j := by
  induction dkeys with
  | nil => simp at hmem
  | cons k rest ih =>
      by_cases hk : k = k0
      · subst hk
        unfold tryKeysT
        rw [attemptKey_hit k iv data aad c u hdata, hpost]
      · unfold tryKeysT
        rw [attemptKey_miss k k0 iv data aad aad c u hdata (hall k (by simp)) hk0
          (Or.inl hk)]
        have hmem2 : k0 ∈ rest := by
          rcases List.mem_cons.mp hmem with he | hr
          · exact absurd he.symm hk
          · exact hr
        exact ih (fun x hx => hall x (by simp [hx])) hmem2

theorem tryKeysT_allmiss (dkeys : List Bytes) (iv tag : Bytes) (vf : Option Json)
    (aad : Bytes) (c u : Bool)
    (h : ∀ k ∈ dkeys, attemptKey k iv tag vf aad c u = none) :
    tryKeysT dkeys iv tag vf aad c u = (.error (.decryption defaultMsg), dkeys.length) := by
  induction dkeys with
  | nil => rfl
  | cons k rest ih =>
      unfold tryKeysT
      rw [h k (by simp), ih (fun x hx => h x (by simp [hx]))]
      rfl

end Encrypter

theorem headD_mem {α : Type} (l : List α) (d : α) (h : l ≠ []) : l.headD d ∈ l := by
  cases l with
  | nil => exact absurd rfl h
  | cons x xs => simp

namespace Encrypter

theorem decryptT_ok (keys : List Bytes) (payload : String) (o : DecOpts) (now : Int)
    (jp : Json) (h : getJsonPayload payload = .ok jp) :
    decryptT keys payload o now
      = if expExceeded (jGet jp "exp") now then
          (.error (.decryption "The payload has expired."), 0)
        else if optTruthy (jGet jp "aad") && !strTruthy o.context then
          (.error (.decryption "The payload requires a context for decryption."), 0)
        else
          match asStr (jGet jp "iv"), asStr (jGet jp "tag") with
          | some ivs, some tags =>
              tryKeysT keys (base64Decode ivs) (base64Decode tags) (jGet jp "value")
                (if strTruthy o.context then utf8Encode (o.context.getD "") else [])
                (isTrueJson (jGet jp "c")) (!(o.unserialize == some false))
          | _, _ => (.error .typeError, 0) := by
  unfold decryptT
  rw [h]

theorem keys_head_len (keys : List Bytes) (h : ∀ k ∈ keys, k.length = 32 ∧ WfBytes k)
    (hne : keys ≠ []) : (keys.headD []).length = 32 :=
  (h _ (headD_mem keys [] hne)).1

theorem keys_head_wf (keys : List Bytes) (h : ∀ k ∈ keys, k.length = 32 ∧ WfBytes k)
    (hne : keys ≠ []) : WfBytes (keys.headD []) :=
  (h _ (headD_mem keys [] hne)).2

end Encrypter

/-- C1: for every JSON-serializable value and every validly constructed
Encrypter, decrypting an encryption of the value (all options at their
defaults) returns the value itself, whatever nonce `randomBytes(16)` drew
and at whatever times the two calls happen. -/
theorem C1_round_trip (keys : List Bytes) (iv : Bytes) (now now2 : Int) (v : Json)
    (hk : Encrypter.ValidKeys keys) (hivlen : iv.length = 16) (hivwf : WfBytes iv) :
    Encrypter.decrypt keys (Encrypter.encrypt keys iv now v Encrypter.noEncOpts)
      Encrypter.noDecOpts now2 = .ok v := by
  obtain ⟨hne, hprops⟩ := hk
  have hivne : iv ≠ [] := by
    intro h
    rw [h] at hivlen
    simp at hivlen
  have hdata : Encrypter.envData v Encrypter.noEncOpts ≠ [] :=
    utf8Encode_ne_nil _ (jsonStringify_ne_empty v)
  unfold Encrypter.decrypt
  rw [Encrypter.decryptT_ok keys _ _ now2 _
    (Encrypter.getJsonPayload_encrypt keys iv now v _ hivne hdata)]
  show (Encrypter.tryKeysT keys (base64Decode (base64Encode iv))
      (base64Decode (base64Encode (gcmTag (keys.headD []) iv []
        (utf8Encode (jsonStringify v)))))
      (some (Json.str (base64Encode (utf8Encode (jsonStringify v))))) [] false true).1
    = Except.ok v
  rw [base64_roundtrip iv hivwf,
    base64_roundtrip _ (gcmTag_wf _ _ _ _ (Encrypter.keys_head_wf keys hprops hne) hivwf
      (by intro b hb; simp at hb) (utf8Encode_wf _))]
  exact Encrypter.tryKeysT_hit keys (keys.headD []) iv (utf8Encode (jsonStringify v)) []
    false true v (fun k hk => (hprops k hk).1) (Encrypter.keys_head_len keys hprops hne)
    (headD_mem keys [] hne) (utf8Encode_wf _)
    (by show jsonParse (utf8Decode (utf8Encode (jsonStringify v))) = some v
        rw [utf8_roundtrip, json_roundtrip])

set_option maxRecDepth 1000000

/-- A 32-byte key (the UTF-8 bytes of 32 ASCII zeros). -/
def demoKeyA : Bytes := utf8Encode "00000000000000000000000000000000"

/-- Another 32-byte key. -/
def demoKeyB : Bytes := utf8Encode "11111111111111111111111111111111"

/-- A 16-byte nonce. -/
def demoIv : Bytes := List.replicate 16 0

/-- A different 16-byte nonce. -/
def demoIv2 : Bytes := 1 :: List.replicate 15 0

theorem C1_round_trip_witness :
    Encrypter.ValidKeys [demoKeyA] ∧ demoIv.length = 16 ∧ WfBytes demoIv ∧
      Encrypter.decrypt [demoKeyA]
        (Encrypter.encrypt [demoKeyA] demoIv 0 (Json.str "Hello World") Encrypter.noEncOpts)
        Encrypter.noDecOpts 5 = .ok (Json.str "Hello World") :=
  ⟨⟨by decide, by decide⟩, by decide, by decide,
    C1_round_trip [demoKeyA] demoIv 0 5 (Json.str "Hello World")
      ⟨by decide, by decide⟩ (by decide) (by decide)⟩

/-- C2: a payload encrypted under the single key ring `[K_old]` decrypts
(returning the value) under the ring `[K_new, K_old]`; and encryption only
ever reads the key at index 0: extending a ring behind its head leaves
`encrypt` unchanged. -/
theorem C2_rotation_read (kOld kNew : Bytes) (iv : Bytes) (now now2 : Int) (v : Json)
    (hOld : kOld.length = 32 ∧ WfBytes kOld) (hNew : kNew.length = 32 ∧ WfBytes kNew)
    (hivlen : iv.length = 16) (hivwf : WfBytes iv) :
    Encrypter.decrypt [kNew, kOld]
        (Encrypter.encrypt [kOld] iv now v Encrypter.noEncOpts) Encrypter.noDecOpts now2
      = .ok v
    ∧ ∀ (rest : List Bytes) (value : Json) (o : Encrypter.EncOpts),
        Encrypter.encrypt (kOld :: rest) iv now value o
          = Encrypter.encrypt [kOld] iv now value o := by
  constructor
  · have hivne : iv ≠ [] := by
      intro h
      rw [h] at hivlen
      simp at hivlen
    have hdata : Encrypter.envData v Encrypter.noEncOpts ≠ [] :=
      utf8Encode_ne_nil _ (jsonStringify_ne_empty v)
    unfold Encrypter.decrypt
    rw [Encrypter.decryptT_ok [kNew, kOld] _ _ now2 _
      (Encrypter.getJsonPayload_encrypt [kOld] iv now v _ hivne hdata)]
    show (Encrypter.tryKeysT [kNew, kOld] (base64Decode (base64Encode iv))
        (base64Decode (base64Encode (gcmTag kOld iv [] (utf8Encode (jsonStringify v)))))
        (some (Json.str (base64Encode (utf8Encode (jsonStringify v))))) [] false true).1
      = Except.ok v
    rw [base64_roundtrip iv hivwf,
      base64_roundtrip _ (gcmTag_wf _ _ _ _ hOld.2 hivwf (by intro b hb; simp at hb)
        (utf8Encode_wf _))]
    exact Encrypter.tryKeysT_hit [kNew, kOld] kOld iv (utf8Encode (jsonStringify v)) []
      false true v
      (by intro k hk
          rcases List.mem_cons.mp hk with rfl | hk2
          · exact hNew.1
          · rcases List.mem_cons.mp hk2 with rfl | hk3
            · exact hOld.1
            · simp at hk3)
      hOld.1 (by simp) (utf8Encode_wf _)
      (by show jsonParse (utf8Decode (utf8Encode (jsonStringify v))) = some v
          rw [utf8_roundtrip, json_roundtrip])
  · intro rest value o
    rfl

theorem C2_rotation_read_witness :
    (demoKeyA.length = 32 ∧ WfBytes demoKeyA) ∧ (demoKeyB.length = 32 ∧ WfBytes demoKeyB) ∧
      demoIv.length = 16 ∧ WfBytes demoIv ∧
      Encrypter.decrypt [demoKeyB, demoKeyA]
        (Encrypter.encrypt [demoKeyA] demoIv 0 (Json.str "old secret") Encrypter.noEncOpts)
        Encrypter.noDecOpts 5 = .ok (Json.str "old secret") :=
  ⟨⟨by decide, by decide⟩, ⟨by decide, by decide⟩, by decide, by decide,
    (C2_rotation_read demoKeyA demoKeyB demoIv 0 5 (Json.str "old secret")
      ⟨by decide, by decide⟩ ⟨by decide, by decide⟩ (by decide) (by decide)).1⟩

/-- C3: a payload encrypted under `[K_new, K_old]` (so under `K_new`) fails
to decrypt under the ring `[K_old]` when the keys differ: the single key is
tried (attempt count 1 = the whole ring), its authentication failure is
swallowed, and after ring exhaustion the one generic `DecryptionException`
with the default message reaches the caller. -/
theorem C3_write_isolation (kOld kNew : Bytes) (iv : Bytes) (now now2 : Int) (v : Json)
    (hOld : kOld.length = 32 ∧ WfBytes kOld) (hNew : kNew.length = 32 ∧ WfBytes kNew)
    (hivlen : iv.length = 16) (hivwf : WfBytes iv) (hne : kNew ≠ kOld) :
    Encrypter.decryptT [kOld]
        (Encrypter.encrypt [kNew, kOld] iv now v Encrypter.noEncOpts)
        Encrypter.noDecOpts now2
      = (.error (.decryption defaultMsg), 1) := by
  have hivne : iv ≠ [] := by
    intro h
    rw [h] at hivlen
    simp at hivlen
  have hdata : Encrypter.envData v Encrypter.noEncOpts ≠ [] :=
    utf8Encode_ne_nil _ (jsonStringify_ne_empty v)
  rw [Encrypter.decryptT_ok [kOld] _ _ now2 _
    (Encrypter.getJsonPayload_encrypt [kNew, kOld] iv now v _ hivne hdata)]
  show Encrypter.tryKeysT [kOld] (base64Decode (base64Encode iv))
      (base64Decode (base64Encode (gcmTag kNew iv [] (utf8Encode (jsonStringify v)))))
      (some (Json.str (base64Encode (utf8Encode (jsonStringify v))))) [] false true
    = (Except.error (JsError.decryption defaultMsg), 1)
  rw [base64_roundtrip iv hivwf,
    base64_roundtrip _ (gcmTag_wf _ _ _ _ hNew.2 hivwf (by intro b hb; simp at hb)
      (utf8Encode_wf _))]
  exact Encrypter.tryKeysT_allmiss [kOld] iv _ _ [] false true
    (by intro k hk
        rcases List.mem_cons.mp hk with rfl | hk2
        · exact Encrypter.attemptKey_miss k kNew iv (utf8Encode (jsonStringify v)) [] []
            false true (utf8Encode_wf _) hOld.1 hNew.1
            (Or.inl (fun h => hne (h.symm ▸ rfl)))
        · simp at hk2)

theorem C3_write_isolation_witness :
    (demoKeyA.length = 32 ∧ WfBytes demoKeyA) ∧ (demoKeyB.length = 32 ∧ WfBytes demoKeyB) ∧
      demoIv.length = 16 ∧ WfBytes demoIv ∧ demoKeyB ≠ demoKeyA ∧
      Encrypter.decryptT [demoKeyA]
        (Encrypter.encrypt [demoKeyB, demoKeyA] demoIv 0 (Json.str "new secret")
          Encrypter.noEncOpts)
        Encrypter.noDecOpts 5 = (.error (.decryption defaultMsg), 1) :=
  ⟨⟨by decide, by decide⟩, ⟨by decide, by decide⟩, by decide, by decide, by decide,
    C3_write_isolation demoKeyA demoKeyB demoIv 0 5 (Json.str "new secret")
      ⟨by decide, by decide⟩ ⟨by decide, by decide⟩ (by decide) (by decide) (by decide)⟩

/-- C4 (amended): for every payload whose decoded envelope carries a
*truthy* (nonzero) numeric expiry timestamp earlier than the current time,
decrypt fails at once with the expiration message — a value distinct from
the generic tamper error — performing zero cryptographic attempts (no key
of the ring is tried). A zero timestamp is treated by the code as absent
(JS truthiness), which is what the unamended claim missed. -/
theorem C4_expiry_amended (keys : List Bytes) (p : String) (o : Encrypter.DecOpts)
    (now : Int) (jp : Json) (e : Int)
    (h1 : Encrypter.getJsonPayload p = .ok jp) (h2 : jGet jp "exp" = some (Json.num e))
    (h3 : e ≠ 0) (h4 : now > e) :
    Encrypter.decryptT keys p o now
        = (.error (.decryption "The payload has expired."), 0)
      ∧ JsError.decryption "The payload has expired." ≠ JsError.decryption defaultMsg := by
  constructor
  · rw [Encrypter.decryptT_ok keys p o now jp h1]
    have hexp : expExceeded (jGet jp "exp") now = true := by
      rw [h2]
      show ((!(e == 0)) && decide (now > e)) = true
      rw [decide_eq_true h4]
      have he : (e == 0) = false := by
        rw [beq_eq_false_iff_ne]
        exact h3
      rw [he]
      rfl
    rw [hexp]
    rfl
  · intro h
    injection h with h2
    exact absurd h2 (by decide)

theorem C4_expiry_amended_witness :
    Encrypter.getJsonPayload
        (Encrypter.encrypt [demoKeyA] demoIv 1000 (Json.str "x") ⟨none, none, some (-2), none⟩)
        = .ok (Encrypter.envelope [demoKeyA] demoIv 1000 (Json.str "x")
            ⟨none, none, some (-2), none⟩)
      ∧ jGet (Encrypter.envelope [demoKeyA] demoIv 1000 (Json.str "x")
          ⟨none, none, some (-2), none⟩) "exp" = some (Json.num (-1000))
      ∧ (-1000 : Int) ≠ 0 ∧ (2000 : Int) > -1000
      ∧ Encrypter.decryptT [demoKeyA]
          (Encrypter.encrypt [demoKeyA] demoIv 1000 (Json.str "x")
            ⟨none, none, some (-2), none⟩) Encrypter.noDecOpts 2000
          = (.error (.decryption "The payload has expired."), 0) :=
  ⟨rfl, rfl, by decide, by decide,
    (C4_expiry_amended [demoKeyA]
      (Encrypter.encrypt [demoKeyA] demoIv 1000 (Json.str "x") ⟨none, none, some (-2), none⟩)
      Encrypter.noDecOpts 2000
      (Encrypter.envelope [demoKeyA] demoIv 1000 (Json.str "x") ⟨none, none, some (-2), none⟩)
      (-1000) (by rfl) (by rfl) (by decide) (by decide)).1⟩

/-- C4 counterexample to the claim as stated: a concrete payload whose
envelope carries the expiry timestamp 0 — strictly earlier than the current
time 2000 — which decrypt does *not* reject as expired: the truthiness
check `if (jsonPayload.exp && ...)` skips a zero timestamp, cryptographic
work proceeds, and decryption succeeds. -/
theorem C4_expiry_counterexample :
    (Encrypter.getJsonPayload
        (Encrypter.encrypt [demoKeyA] demoIv 1000 (Json.str "x")
          ⟨none, none, some (-1), none⟩)).toOption.bind (fun jp => jGet jp "exp")
      = some (Json.num 0)
    ∧ (0 : Int) < 2000
    ∧ Encrypter.decrypt [demoKeyA]
        (Encrypter.encrypt [demoKeyA] demoIv 1000 (Json.str "x")
          ⟨none, none, some (-1), none⟩) Encrypter.noDecOpts 2000
      = .ok (Json.str "x") :=
  ⟨rfl, by decide, rfl⟩

theorem ctx_allmiss (keys : List Bytes) (iv data aad aad2 : Bytes) (c u : Bool)
    (hall : ∀ k ∈ keys, k.length = 32) (hk0 : (keys.headD []).length = 32)
    (hdataw : WfBytes data) (hne : aad2 ≠ aad) :
    Encrypter.tryKeysT keys iv (gcmTag (keys.headD []) iv aad data)
      (some (.str (base64Encode data))) aad2 c u
      = (.error (.decryption defaultMsg), keys.length) :=
  Encrypter.tryKeysT_allmiss keys iv _ _ aad2 c u
    (fun k hk => Encrypter.attemptKey_miss k (keys.headD []) iv data aad aad2 c u hdataw
      (hall k hk) hk0 (Or.inr hne))

/-- C5: a payload encrypted with context `"A"` decrypts to the value
exactly when the caller supplies context `"A"` again; with context `"B"`
every key fails AEAD authentication and the generic tamper error surfaces,
and with no context the distinct context-required error is raised before
any key is tried. -/
theorem C5_context_binding (keys : List Bytes) (iv : Bytes) (now now2 : Int) (v : Json)
    (ctx : Option String) (hk : Encrypter.ValidKeys keys) (hivlen : iv.length = 16)
    (hivwf : WfBytes iv) :
    Encrypter.decrypt keys
        (Encrypter.encrypt keys iv now v ⟨none, none, none, some "A"⟩)
        ⟨none, some "B"⟩ now2 = .error (.decryption defaultMsg)
    ∧ Encrypter.decrypt keys
        (Encrypter.encrypt keys iv now v ⟨none, none, none, some "A"⟩)
        ⟨none, none⟩ now2
        = .error (.decryption "The payload requires a context for decryption.")
    ∧ (Encrypter.decrypt keys
        (Encrypter.encrypt keys iv now v ⟨none, none, none, some "A"⟩)
        ⟨none, ctx⟩ now2 = .ok v ↔ ctx = some "A") := by
  obtain ⟨hne, hprops⟩ := hk
  have hivne : iv ≠ [] := by
    intro h
    rw [h] at hivlen
    simp at hivlen
  have hdata : Encrypter.envData v ⟨none, none, none, some "A"⟩ ≠ [] :=
    utf8Encode_ne_nil _ (jsonStringify_ne_empty v)
  have hok := Encrypter.getJsonPayload_encrypt keys iv now v ⟨none, none, none, some "A"⟩
    hivne hdata
  have hwfdata : WfBytes (utf8Encode (jsonStringify v)) := utf8Encode_wf _
  have hwftag : WfBytes (gcmTag (keys.headD []) iv (utf8Encode "A")
      (utf8Encode (jsonStringify v))) :=
    gcmTag_wf _ _ _ _ (Encrypter.keys_head_wf keys hprops hne) hivwf (utf8Encode_wf _)
      hwfdata
  have hall : ∀ k ∈ keys, k.length = 32 := fun k hk => (hprops k hk).1
  have hk0 : (keys.headD []).length = 32 := Encrypter.keys_head_len keys hprops hne
  have hB : Encrypter.decrypt keys
      (Encrypter.encrypt keys iv now v ⟨none, none, none, some "A"⟩)
      ⟨none, some "B"⟩ now2 = .error (.decryption defaultMsg) := by
    unfold Encrypter.decrypt
    rw [Encrypter.decryptT_ok keys _ _ now2 _ hok]
    show (Encrypter.tryKeysT keys (base64Decode (base64Encode iv))
        (base64Decode (base64Encode (gcmTag (keys.headD []) iv (utf8Encode "A")
          (utf8Encode (jsonStringify v)))))
        (some (Json.str (base64Encode (utf8Encode (jsonStringify v)))))
        (utf8Encode "B") false true).1
      = Except.error (JsError.decryption defaultMsg)
    rw [base64_roundtrip iv hivwf, base64_roundtrip _ hwftag]
    rw [ctx_allmiss keys iv (utf8Encode (jsonStringify v)) (utf8Encode "A")
      (utf8Encode "B") false true hall hk0 hwfdata (by decide)]
  have hNone : Encrypter.decrypt keys
      (Encrypter.encrypt keys iv now v ⟨none, none, none, some "A"⟩)
      ⟨none, none⟩ now2
      = .error (.decryption "The payload requires a context for decryption.") := by
    unfold Encrypter.decrypt
    rw [Encrypter.decryptT_ok keys _ _ now2 _ hok]
    rfl
  refine ⟨hB, hNone, ?_, ?_⟩
  · intro h
    match ctx, h with
    | some c, h =>
        by_cases hcA : c = "A"
        · rw [hcA]
        · exfalso
          by_cases hcE : c = ""
          · subst hcE
            have hEmpty : Encrypter.decrypt keys
                (Encrypter.encrypt keys iv now v ⟨none, none, none, some "A"⟩)
                ⟨none, some ""⟩ now2
                = .error (.decryption "The payload requires a context for decryption.") := by
              unfold Encrypter.decrypt
              rw [Encrypter.decryptT_ok keys _ _ now2 _ hok]
              rfl
            rw [hEmpty] at h
            exact absurd h (by simp)
          · have hmiss : Encrypter.decrypt keys
                (Encrypter.encrypt keys iv now v ⟨none, none, none, some "A"⟩)
                ⟨none, some c⟩ now2 = .error (.decryption defaultMsg) := by
              unfold Encrypter.decrypt
              rw [Encrypter.decryptT_ok keys _ _ now2 _ hok]
              have hsc : strTruthy (⟨none, some c⟩ : Encrypter.DecOpts).context = true := by
                show (!(c == "")) = true
                rw [(beq_eq_false_iff_ne (a := c) (b := "")).mpr hcE]
                rfl
              rw [hsc]
              show (Encrypter.tryKeysT keys (base64Decode (base64Encode iv))
                  (base64Decode (base64Encode (gcmTag (keys.headD []) iv (utf8Encode "A")
                    (utf8Encode (jsonStringify v)))))
                  (some (Json.str (base64Encode (utf8Encode (jsonStringify v)))))
                  (utf8Encode c) false true).1
                = Except.error (JsError.decryption defaultMsg)
              rw [base64_roundtrip iv hivwf, base64_roundtrip _ hwftag]
              rw [ctx_allmiss keys iv (utf8Encode (jsonStringify v)) (utf8Encode "A")
                (utf8Encode c) false true hall hk0 hwfdata
                (fun he => hcA (utf8Encode_inj c "A" he))]
            rw [hmiss] at h
            exact absurd h (by simp)
    | none, h =>
        rw [hNone] at h
        exact absurd h (by simp)
  · intro h
    subst h
    unfold Encrypter.decrypt
    rw [Encrypter.decryptT_ok keys _ _ now2 _ hok]
    show (Encrypter.tryKeysT keys (base64Decode (base64Encode iv))
        (base64Decode (base64Encode (gcmTag (keys.headD []) iv (utf8Encode "A")
          (utf8Encode (jsonStringify v)))))
        (some (Json.str (base64Encode (utf8Encode (jsonStringify v)))))
        (utf8Encode "A") false true).1
      = Except.ok v
    rw [base64_roundtrip iv hivwf, base64_roundtrip _ hwftag]
    exact Encrypter.tryKeysT_hit keys (keys.headD []) iv (utf8Encode (jsonStringify v))
      (utf8Encode "A") false true v hall hk0 (headD_mem keys [] hne) hwfdata
      (by show jsonParse (utf8Decode (utf8Encode (jsonStringify v))) = some v
          rw [utf8_roundtrip, json_roundtrip])

theorem C5_context_binding_witness :
    Encrypter.ValidKeys [demoKeyA] ∧ demoIv.length = 16 ∧ WfBytes demoIv ∧
      Encrypter.decrypt [demoKeyA]
        (Encrypter.encrypt [demoKeyA] demoIv 0 (Json.str "s") ⟨none, none, none, some "A"⟩)
        ⟨none, none⟩ 5
        = .error (.decryption "The payload requires a context for decryption.") ∧
      (Encrypter.decrypt [demoKeyA]
        (Encrypter.encrypt [demoKeyA] demoIv 0 (Json.str "s") ⟨none, none, none, some "A"⟩)
        ⟨none, some "A"⟩ 5 = .ok (Json.str "s") ↔ (some "A" : Option String) = some "A") :=
  ⟨⟨by decide, by decide⟩, by decide, by decide,
    (C5_context_binding [demoKeyA] demoIv 0 5 (Json.str "s") (some "A")
      ⟨by decide, by decide⟩ (by decide) (by decide)).2.1,
    (C5_context_binding [demoKeyA] demoIv 0 5 (Json.str "s") (some "A")
      ⟨by decide, by decide⟩ (by decide) (by decide)).2.2⟩

/-- C6: whatever string is handed to the payload decoder — unparseable
transport encoding, non-JSON content, or a decoded record missing (or
carrying falsy) `iv`/`value`/`tag` fields — the error is always the one
generic `DecryptionException` with the default message, and `decrypt`
forwards exactly that error without having touched any key. -/
theorem C6_opaque_errors (p : String) (e : JsError)
    (h : Encrypter.getJsonPayload p = .error e) :
    e = .decryption defaultMsg
    ∧ ∀ (keys : List Bytes) (o : Encrypter.DecOpts) (now : Int),
        Encrypter.decryptT keys p o now = (.error e, 0) := by
  have he : e = .decryption defaultMsg := by
    unfold Encrypter.getJsonPayload at h
    match hj : jsonParse (utf8Decode (base64Decode p)) with
    | none =>
        rw [hj] at h
        cases h
        rfl
    | some d =>
        rw [hj] at h
        have h2 : (if Encrypter.validPayload d = true then Except.ok d
            else Except.error (JsError.decryption defaultMsg)) = Except.error e := h
        by_cases hv : Encrypter.validPayload d = true
        · rw [if_pos hv] at h2
          cases h2
        · rw [if_neg hv] at h2
          cases h2
          rfl
  refine ⟨he, fun keys o now => ?_⟩
  unfold Encrypter.decryptT
  rw [h]

theorem C6_opaque_errors_witness :
    Encrypter.getJsonPayload "###not base64 json###" = .error (.decryption defaultMsg)
    ∧ Encrypter.decryptT [demoKeyA] "###not base64 json###" Encrypter.noDecOpts 0
        = (.error (.decryption defaultMsg), 0) :=
  ⟨by rfl,
    (C6_opaque_errors "###not base64 json###" (.decryption defaultMsg) (by rfl)).2
      [demoKeyA] Encrypter.noDecOpts 0⟩

theorem hmacHex_ne_empty (key : Bytes) (msg : String) : hmacHex key msg ≠ "" := by
  unfold hmacHex hmac32
  intro h
  have hd := congrArg String.data h
  rw [show (List.range 32) = 0 :: List.range' 1 31 from by decide] at hd
  simp [hexChars] at hd

/-- C7: verifying a signature of any value under the key ring that produced
it returns the value: the stored digest recomputes identically under the
active key (index 0), the constant-time comparison sees equal-length equal
buffers, and the canonical serialized form parses back. -/
theorem C7_sign_verify (keys : List Bytes) (v : Json) (hk : Encrypter.ValidKeys keys) :
    Encrypter.verify keys (Encrypter.sign keys v) = .ok v := by
  obtain ⟨hne, -⟩ := hk
  obtain ⟨k, rest, rfl⟩ := List.exists_cons_of_ne_nil hne
  unfold Encrypter.verify Encrypter.sign
  rw [base64_roundtrip _ (utf8Encode_wf _), utf8_roundtrip, json_roundtrip]
  have hJ : (jsonStringify v == "") = false := by
    rw [beq_eq_false_iff_ne]
    exact jsonStringify_ne_empty v
  have hS : (Encrypter.hash (k :: rest) (jsonStringify v) == "") = false := by
    rw [beq_eq_false_iff_ne]
    exact hmacHex_ne_empty _ _
  show (if (!(!(jsonStringify v == ""))
        || !(!(Encrypter.hash (k :: rest) (jsonStringify v) == ""))) = true
      then Except.error (JsError.decryption "Signature verification failed.")
      else
        match Encrypter.verifyKeys (k :: rest) (jsonStringify v)
          (Encrypter.hash (k :: rest) (jsonStringify v)) with
        | some (some m) =>
            (match jsonParse m with
              | some j => Except.ok j
              | none => Except.error (JsError.decryption "Signature verification failed."))
        | _ => Except.error (JsError.decryption "Signature verification failed."))
      = Except.ok v
  rw [hJ, hS]
  show (match Encrypter.verifyKeys (k :: rest) (jsonStringify v)
      (Encrypter.hash (k :: rest) (jsonStringify v)) with
    | some (some m) =>
        (match jsonParse m with
          | some j => Except.ok j
          | none => Except.error (JsError.decryption "Signature verification failed."))
    | _ => Except.error (JsError.decryption "Signature verification failed."))
      = Except.ok v
  unfold Encrypter.verifyKeys
  rw [if_neg (by unfold Encrypter.hash; simp)]
  rw [if_pos (by unfold Encrypter.hash; rfl)]
  show (match jsonParse (jsonStringify v) with
    | some j => Except.ok j
    | none => Except.error (JsError.decryption "Signature verification failed."))
      = Except.ok v
  rw [json_roundtrip]

theorem C7_sign_verify_witness :
    Encrypter.ValidKeys [demoKeyA]
    ∧ Encrypter.verify [demoKeyA]
        (Encrypter.sign [demoKeyA] (Json.obj [("foo", Json.str "bar")]))
        = .ok (Json.obj [("foo", Json.str "bar")]) :=
  ⟨⟨by decide, by decide⟩,
    C7_sign_verify [demoKeyA] (Json.obj [("foo", Json.str "bar")]) ⟨by decide, by decide⟩⟩

/-- C8 (amended): `encrypt` performs no validation of its options and never
raises: with a negative ttl it still runs the cipher and emits a well-formed
envelope, whose `exp` timestamp already lies in the past, so that any
decryption at or after encryption time fails with the expiry error (when
the computed timestamp is nonzero; the timestamp-zero fringe falls into the
C4 truthiness gap). -/
theorem C8_neg_ttl_amended (keys : List Bytes) (iv : Bytes) (now now2 : Int) (v : Json)
    (t : Int) (hivlen : iv.length = 16)
    (ht : t < 0) (hnz : now + t * 1000 ≠ 0) (hnow : now ≤ now2) :
    Encrypter.decryptT keys
        (Encrypter.encrypt keys iv now v ⟨none, none, some t, none⟩) ⟨none, none⟩ now2
      = (.error (.decryption "The payload has expired."), 0) := by
  have hivne : iv ≠ [] := by
    intro h
    rw [h] at hivlen
    simp at hivlen
  have hdata : Encrypter.envData v ⟨none, none, some t, none⟩ ≠ [] :=
    utf8Encode_ne_nil _ (jsonStringify_ne_empty v)
  rw [Encrypter.decryptT_ok keys _ _ now2 _
    (Encrypter.getJsonPayload_encrypt keys iv now v _ hivne hdata)]
  have hif : (match (⟨none, none, some t, none⟩ : Encrypter.EncOpts).ttl with
      | some t => if t = 0 then [] else [("exp", Json.num (now + t * 1000))]
      | none => ([] : List (String × Json)))
      = [("exp", Json.num (now + t * 1000))] := by
    show (if t = 0 then [] else [("exp", Json.num (now + t * 1000))]) = _
    rw [if_neg (show ¬t = 0 from by omega)]
  have hexp : jGet (Encrypter.envelope keys iv now v ⟨none, none, some t, none⟩) "exp"
      = some (Json.num (now + t * 1000)) := by
    unfold Encrypter.envelope
    rw [hif]
    rw [jGet_obj_append_skip _ _ _ (by intro p hp; simp [strTruthy] at hp)]
    exact jGet_obj_append_last _ "exp" (Json.num (now + t * 1000))
  have hexc : expExceeded (jGet (Encrypter.envelope keys iv now v
      ⟨none, none, some t, none⟩) "exp") now2 = true := by
    rw [hexp]
    show ((!((now + t * 1000 : Int) == 0)) && decide (now2 > now + t * 1000)) = true
    rw [decide_eq_true (show now2 > now + t * 1000 from by omega)]
    rw [(beq_eq_false_iff_ne (a := now + t * 1000) (b := 0)).mpr hnz]
    rfl
  rw [hexc]
  rfl

theorem C8_neg_ttl_amended_witness :
    demoIv.length = 16 ∧ (-2 : Int) < 0 ∧ (1000 + (-2) * 1000 : Int) ≠ 0
    ∧ (1000 : Int) ≤ 1000
    ∧ Encrypter.decryptT [demoKeyA]
        (Encrypter.encrypt [demoKeyA] demoIv 1000 (Json.str "x") ⟨none, none, some (-2), none⟩)
        Encrypter.noDecOpts 1000
      = (.error (.decryption "The payload has expired."), 0) :=
  ⟨by decide, by decide, by decide, by decide,
    C8_neg_ttl_amended [demoKeyA] demoIv 1000 1000 (Json.str "x") (-2) (by decide)
      (by decide) (by decide) (by decide)⟩

/-- C8 counterexample to the claim as stated: a concrete `encrypt` call
with the malformed option `ttl = -2` does *not* fail fast — it returns a
payload that decodes to a complete well-formed envelope (so the
cryptographic work was all performed); only a later `decrypt` rejects it,
as expired. In the model `encrypt` is total: the method body contains no
validation and no throw site. -/
theorem C8_neg_ttl_counterexample :
    (Encrypter.getJsonPayload
        (Encrypter.encrypt [demoKeyA] demoIv 1000 (Json.str "x")
          ⟨none, none, some (-2), none⟩)).toOption.isSome = true
    ∧ Encrypter.decrypt [demoKeyA]
        (Encrypter.encrypt [demoKeyA] demoIv 1000 (Json.str "x")
          ⟨none, none, some (-2), none⟩) Encrypter.noDecOpts 1000
      = .error (.decryption "The payload has expired.") :=
  ⟨by rfl, by rfl⟩

/-- C9: payload validation conflates empty with missing: any decoded
envelope whose `iv`, `value` (ciphertext) or `tag` property is the empty
string is falsy under `payload.iv && payload.value && payload.tag` and is
rejected with the generic error; concretely, encrypting the empty string
with `serialize: false` yields an empty AES-GCM ciphertext whose base64 is
`""`, so decrypt rejects the very payload encrypt produced and the round
trip breaks. -/
theorem C9_empty_field_rejected (keys : List Bytes) (iv : Bytes) (now now2 : Int) :
    (∀ j : Json,
        (jGet j "iv" = some (Json.str "") ∨ jGet j "value" = some (Json.str "")
          ∨ jGet j "tag" = some (Json.str "")) → Encrypter.validPayload j = false)
    ∧ Encrypter.decrypt keys
        (Encrypter.encrypt keys iv now (Json.str "") ⟨some false, none, none, none⟩)
        ⟨none, none⟩ now2 = .error (.decryption defaultMsg) := by
  constructor
  · intro j hj
    unfold Encrypter.validPayload
    rcases hj with h | h | h <;> rw [h] <;> simp [optTruthy, jsonTruthy]
  · have hvp : Encrypter.validPayload (Encrypter.envelope keys iv now (Json.str "")
        ⟨some false, none, none, none⟩) = false := by
      unfold Encrypter.validPayload
      rw [show jGet (Encrypter.envelope keys iv now (Json.str "")
        ⟨some false, none, none, none⟩) "value" = some (Json.str "") from rfl]
      simp [optTruthy, jsonTruthy]
    have hgjp : Encrypter.getJsonPayload
        (Encrypter.encrypt keys iv now (Json.str "") ⟨some false, none, none, none⟩)
        = .error (.decryption defaultMsg) := by
      unfold Encrypter.getJsonPayload Encrypter.encrypt
      rw [base64_roundtrip _ (utf8Encode_wf _), utf8_roundtrip, json_roundtrip]
      show (if Encrypter.validPayload (Encrypter.envelope keys iv now (Json.str "")
          ⟨some false, none, none, none⟩) = true
        then Except.ok (Encrypter.envelope keys iv now (Json.str "")
          ⟨some false, none, none, none⟩)
        else Except.error (JsError.decryption defaultMsg))
          = Except.error (JsError.decryption defaultMsg)
      rw [hvp]
      rfl
    unfold Encrypter.decrypt Encrypter.decryptT
    rw [hgjp]

theorem C9_empty_field_rejected_witness :
    jGet (Json.obj [("iv", Json.str "QQ=="), ("value", Json.str ""),
        ("tag", Json.str "QQ==")]) "value" = some (Json.str "")
    ∧ Encrypter.validPayload (Json.obj [("iv", Json.str "QQ=="), ("value", Json.str ""),
        ("tag", Json.str "QQ==")]) = false
    ∧ Encrypter.decrypt [demoKeyA]
        (Encrypter.encrypt [demoKeyA] demoIv 0 (Json.str "") ⟨some false, none, none, none⟩)
        Encrypter.noDecOpts 5 = .error (.decryption defaultMsg) :=
  ⟨by rfl,
    (C9_empty_field_rejected [demoKeyA] demoIv 0 5).1
      (Json.obj [("iv", Json.str "QQ=="), ("value", Json.str ""), ("tag", Json.str "QQ==")])
      (Or.inr (Or.inl (by rfl))),
    (C9_empty_field_rejected [demoKeyA] demoIv 0 5).2⟩

/-- C10: `sign` is deterministic — its output is independent of the
process randomness supply, because the method body draws no random bytes
at all — whereas `encrypt` consumes one `randomBytes(16)` draw per call and
two calls with different draws produce different payload strings. -/
theorem C10_sign_deterministic :
    (∀ (rng1 rng2 keys : List Bytes) (v : Json),
        (Encrypter.signR rng1 keys v).1 = (Encrypter.signR rng2 keys v).1)
    ∧ (Encrypter.encryptR [demoIv] [demoKeyA] 0 (Json.str "x") Encrypter.noEncOpts).1
        ≠ (Encrypter.encryptR [demoIv2] [demoKeyA] 0 (Json.str "x") Encrypter.noEncOpts).1 := by
  refine ⟨fun rng1 rng2 keys v => rfl, ?_⟩
  decide
